import Mathlib

/-!
# ID3v2.3 tag editor (`main.c`): shallow embedding and verified properties

The C program reads an ID3v2.3 tag from the start of an MP3 file, optionally
replaces or adds one frame, and rewrites the file.  This development embeds the
codec and the mutation/rewrite path of `main.c` as pure Lean functions.

Modelling conventions
* a byte (`BYTE`, `char`, `unsigned __int8`) is a `Fin 256`;
* `unsigned __int32` values are `Nat`s, every arithmetic step that can wrap in
  C is written with an explicit `% 2 ^ 32`;
* a `FILE *` opened for reading is the byte content plus a read position;
  `fread` past the end of the file delivers the bytes that exist and leaves the
  rest of the (zero-initialised) destination untouched;
* a `FILE *` opened for writing is the list of bytes written so far;
* `calloc`/`realloc` are assumed to succeed and the frame array is a list, so
  `count_of_frames` is the length of that list.  `read_tag` allocates the array
  with `available_size` bytes (line 133) and stores structures of `sizeof_frame`
  bytes in it (line 143): the list is what the array holds as long as these
  stores stay inside the allocation (`frame_array_in_bounds`).  Beyond that the
  C program writes over the heap and what it returns is not determined by its
  input; the theorems on the content of the frames read back
  (`round_trip_within_frame_array`, `main_set_suffix_start`) carry the bound as
  a hypothesis;
* the pre-header of an extended header is kept by value, while the C structure
  keeps a pointer to a local variable of `read_tag` that is dead once `read_tag`
  has returned: what `write_tag` emits for it (and whether it emits a CRC) is
  then the content of that stack slot, whatever it has become;
* the terminating zero that `strcat` writes one byte behind the buffer of the
  `--value` text (line 310) is taken to fall into the slack of the allocation;
* the text that `print_frame_data` writes to `stdout` is the list of the characters
  handed to `printf` (`wchar_t` has 16 bits, little-endian, as on the Windows
  targets the `__int32` types belong to); the progress messages of
  `update_tag_by_name` are not modelled;
* memory that a function reads past the end of a buffer is a parameter.
-/

namespace ID3

/-- One byte of memory or of a file. -/
abbrev Byte := Fin 256

/-- Truncation of a C integer to `unsigned __int8`. -/
def toByte (n : Nat) : Byte := ⟨n % 256, Nat.mod_lt _ (by decide)⟩

/-- A C array of four bytes (`char id[4]`, `unsigned __int8 raw_tag_size[4]`). -/
structure Bytes4 where
  b0 : Byte
  b1 : Byte
  b2 : Byte
  b3 : Byte
deriving DecidableEq, Repr

/-- Array read `a[i]` for `i` in `0..3`. -/
def Bytes4.get (a : Bytes4) (i : Nat) : Byte :=
  match i with
  | 0 => a.b0
  | 1 => a.b1
  | 2 => a.b2
  | _ => a.b3

/-- Array write `a[i] = v` for `i` in `0..3`. -/
def Bytes4.set (a : Bytes4) (i : Nat) (v : Byte) : Bytes4 :=
  match i with
  | 0 => { a with b0 := v }
  | 1 => { a with b1 := v }
  | 2 => { a with b2 := v }
  | 3 => { a with b3 := v }
  | _ => a

/-- The bytes of the array in memory order. -/
def Bytes4.toList (a : Bytes4) : List Byte := [a.b0, a.b1, a.b2, a.b3]

/-- A C array of three bytes (`char id[3]` of the tag header). -/
structure Bytes3 where
  b0 : Byte
  b1 : Byte
  b2 : Byte
deriving DecidableEq, Repr

/-- Unsigned 32-bit addition. -/
def add32 (a b : Nat) : Nat := (a + b) % 2 ^ 32

/-- Unsigned 32-bit subtraction (wraps below zero). -/
def sub32 (a b : Nat) : Nat := (a % 2 ^ 32 + (2 ^ 32 - b % 2 ^ 32)) % 2 ^ 32

/-! ## Streams -/

/-- A file opened with `fopen(_, "rb")`: its content and the read position. -/
structure FILE where
  bytes : List Byte
  pos : Nat
deriving DecidableEq, Repr

/-- Opening a file for reading places the position at offset 0. -/
def fopen_rb (content : List Byte) : FILE := { bytes := content, pos := 0 }

/-- The bytes that `fread` of `n` bytes obtains at the current position
(fewer than `n` when the file ends first). -/
def FILE.peek (f : FILE) (n : Nat) : List Byte := (f.bytes.drop f.pos).take n

/-- The position after an `fread` of `n` bytes. -/
def FILE.advance (f : FILE) (n : Nat) : FILE :=
  { f with pos := f.pos + min n (f.bytes.length - f.pos) }

/-- The call `fseek(file, -10, SEEK_CUR)`: fails, leaving the position, when it would
become negative. -/
def FILE.seek_back10 (f : FILE) : FILE :=
  if 10 ≤ f.pos then { f with pos := f.pos - 10 } else f

/-- Byte `i` of a destination buffer that was zero-initialised and then filled by an
`fread` that delivered `l`. -/
def byteAt (l : List Byte) (i : Nat) : Byte := l.getD i 0

/-- A zero-initialised buffer of `n` bytes after an `fread` that delivered `l`. -/
def zeroPad (n : Nat) (l : List Byte) : List Byte :=
  l.take n ++ List.replicate (n - l.length) 0

/-- Big-endian value of four bytes. -/
def be32 (a b c d : Byte) : Nat :=
  a.val * 2 ^ 24 + b.val * 2 ^ 16 + c.val * 2 ^ 8 + d.val

/-- Big-endian value of two bytes. -/
def be16 (a b : Byte) : Nat := a.val * 2 ^ 8 + b.val

/-- Little-endian value of four bytes. -/
def le32 (a b c d : Byte) : Nat :=
  a.val + b.val * 2 ^ 8 + c.val * 2 ^ 16 + d.val * 2 ^ 24

/-- Little-endian value of two bytes. -/
def le16 (a b : Byte) : Nat := a.val + b.val * 2 ^ 8

/-- The four bytes of a big-endian `unsigned __int32` field. -/
def be32_bytes (n : Nat) : List Byte :=
  [toByte (n / 2 ^ 24), toByte (n / 2 ^ 16), toByte (n / 2 ^ 8), toByte n]

/-- The two bytes of a big-endian `WORD` field. -/
def be16_bytes (n : Nat) : List Byte := [toByte (n / 2 ^ 8), toByte n]

/-! ## Frames (`main.c` lines 10-48) -/

/-- The type `struct IDv3_2_3_frame_header` (declared under
`scalar_storage_order big-endian`). -/
structure IDv3_2_3_frame_header where
  id : Bytes4
  size : Nat
  flags : Nat
deriving DecidableEq, Repr

/-- The type `struct IDv3_2_3_frame`; `data` is the content of the buffer the C pointer
refers to. -/
structure IDv3_2_3_frame where
  header : IDv3_2_3_frame_header
  data : List Byte
deriving DecidableEq, Repr

/-- Function `eq_frame_id` (lines 25-31). -/
def eq_frame_id (first second : Bytes4) : Nat :=
  if first.get 0 ≠ second.get 0 then 0
  else if first.get 1 ≠ second.get 1 then 0
  else if first.get 2 ≠ second.get 2 then 0
  else if first.get 3 ≠ second.get 3 then 0
  else 1

/-- Function `read_frame` (lines 33-42): ten header bytes into a zeroed header, then
`header.size` payload bytes into a zeroed buffer of that size. -/
def read_frame (file : FILE) : IDv3_2_3_frame × FILE :=
  let h := file.peek 10
  let file1 := file.advance 10
  let header : IDv3_2_3_frame_header :=
    { id := ⟨byteAt h 0, byteAt h 1, byteAt h 2, byteAt h 3⟩
      size := be32 (byteAt h 4) (byteAt h 5) (byteAt h 6) (byteAt h 7)
      flags := be16 (byteAt h 8) (byteAt h 9) }
  let data := zeroPad header.size (file1.peek header.size)
  ({ header := header, data := data }, file1.advance header.size)

/-- The ten bytes of a frame header as they lie in memory and in the file. -/
def frame_header_bytes (h : IDv3_2_3_frame_header) : List Byte :=
  h.id.toList ++ be32_bytes h.size ++ be16_bytes h.flags

/-- Function `write_frame` (lines 44-48): the bytes appended to the output file. -/
def write_frame (frame : IDv3_2_3_frame) : List Byte :=
  frame_header_bytes frame.header ++ frame.data.take frame.header.size

/-! ## Tags (`main.c` lines 50-162) -/

/-- The type `struct IDv3_2_3_tag_header`. -/
structure IDv3_2_3_tag_header where
  id : Bytes3
  version_1 : Byte
  version_2 : Byte
  flags : Byte
  raw_tag_size : Bytes4
deriving DecidableEq, Repr

/-- Function `get_tag_size` (lines 86-91). -/
def get_tag_size (header : IDv3_2_3_tag_header) : Nat :=
  (List.range 4).foldl
    (fun res i => res ||| ((header.raw_tag_size.get i).val <<< (7 * (3 - i)))) 0

/-- Function `set_tag_size` (lines 93-96). -/
def set_tag_size (header : IDv3_2_3_tag_header) (size : Nat) : IDv3_2_3_tag_header :=
  (List.range 4).foldl
    (fun h i =>
      { h with raw_tag_size := h.raw_tag_size.set (3 - i) (toByte ((size >>> (7 * i)) &&& 0x7F)) })
    header

/-- Function `get_tag_header_flag` (lines 98-100). -/
def get_tag_header_flag (header : IDv3_2_3_tag_header) (position : Nat) : Nat :=
  (header.flags.val >>> (7 - position)) &&& 1

/-- The type `struct IDv3_2_3_tag_extended_pre_header` (declared after
`scalar_storage_order little-endian`). -/
structure IDv3_2_3_tag_extended_pre_header where
  header_size : Nat
  flags : Nat
  padding_size : Nat
deriving DecidableEq, Repr

/-- The type `struct IDv3_2_3_tag_extended_header`.  In C `pre_header` is a pointer to a
variable local to `read_tag`; the model keeps the value that variable received, that
is, it assumes the memory behind the pointer is not overwritten.  The null pointer of
an absent extended header is the all-zero value. -/
structure IDv3_2_3_tag_extended_header where
  available : Nat
  pre_header : IDv3_2_3_tag_extended_pre_header
  total_frame_crc : Nat
deriving DecidableEq, Repr

/-- The type `struct IDv3_2_3_tag`; `frames` holds the `count_of_frames` frames stored in
the C array. -/
structure IDv3_2_3_tag where
  header : IDv3_2_3_tag_header
  extended_header : IDv3_2_3_tag_extended_header
  frames : List IDv3_2_3_frame
  success : Nat
deriving DecidableEq, Repr

/-- Field `count_of_frames`. -/
def IDv3_2_3_tag.count_of_frames (tag : IDv3_2_3_tag) : Nat := tag.frames.length

/-- The initial value of `tag_header` (line 106) and of `tag.header` (line 103). -/
def zero_tag_header : IDv3_2_3_tag_header :=
  { id := ⟨0, 0, 0⟩, version_1 := 0, version_2 := 0, flags := 0, raw_tag_size := ⟨0, 0, 0, 0⟩ }

/-- The initial value of `extended_header` (line 115). -/
def zero_extended_header : IDv3_2_3_tag_extended_header :=
  { available := 0, pre_header := ⟨0, 0, 0⟩, total_frame_crc := 0 }

/-- The frame loop of `read_tag` (lines 135-145).  `fuel` bounds the number of
iterations; the result is `none` only when the bound is reached.  The result carries
the stream, the final value of `available_size` and the frames stored.  The frames are
collected in a list; the C array they are stored in has the `available_size` bytes of
line 133, see `frame_array_in_bounds` for when the stores of line 143 fit into it. -/
def read_tag_frames : Nat → FILE → Nat → List IDv3_2_3_frame →
    Option (FILE × Nat × List IDv3_2_3_frame)
  | 0, _, _, _ => none
  | fuel + 1, file, available_size, frames =>
    if available_size > 0 then
      let r := read_frame file
      let frame := r.1
      if frame.header.id.get 0 = 0 ∨ frame.header.id.get 1 = 0
          ∨ frame.header.id.get 2 = 0 ∨ frame.header.id.get 3 = 0 then
        some (r.2.seek_back10, available_size, frames)
      else
        let frame_size := add32 10 frame.header.size
        read_tag_frames fuel r.2 (sub32 available_size frame_size) (frames ++ [frame])
    else some (file, available_size, frames)

/-- The header part of `read_tag` (lines 106-112): the tag header read from the stream. -/
def read_tag_header (file : FILE) : IDv3_2_3_tag_header :=
  let h := file.peek 10
  { id := ⟨byteAt h 0, byteAt h 1, byteAt h 2⟩
    version_1 := byteAt h 3
    version_2 := byteAt h 4
    flags := byteAt h 5
    raw_tag_size := ⟨byteAt h 6, byteAt h 7, byteAt h 8, byteAt h 9⟩ }

/-- The extended-header part of `read_tag` (lines 115-127). -/
def read_tag_extended_header (tag_header : IDv3_2_3_tag_header) (file : FILE) :
    IDv3_2_3_tag_extended_header × FILE :=
  if get_tag_header_flag tag_header 1 = 1 then
    let p := file.peek 6
    let file1 := file.advance 6
    let pre_header : IDv3_2_3_tag_extended_pre_header :=
      { header_size := le32 (byteAt p 0) (byteAt p 1) (byteAt p 2) (byteAt p 3)
        flags := le16 (byteAt p 4) (byteAt p 5)
        padding_size := 0 }
    if pre_header.flags >>> 15 = 1 then
      let c := file1.peek 4
      ({ available := 1, pre_header := pre_header
         total_frame_crc := le32 (byteAt c 0) (byteAt c 1) (byteAt c 2) (byteAt c 3) },
       file1.advance 4)
    else
      ({ available := 1, pre_header := pre_header, total_frame_crc := 0 }, file1)
  else (zero_extended_header, file)

/-- Function `read_tag` (lines 102-148), returning the tag and the stream it leaves.
The frame loop is run with as many iterations allowed as there are unread bytes, plus
one. -/
def read_tag (file : FILE) : Option (IDv3_2_3_tag × FILE) :=
  let tag_header := read_tag_header file
  let file1 := file.advance 10
  if tag_header.id.b0 ≠ 73 ∨ tag_header.id.b1 ≠ 68 ∨ tag_header.id.b2 ≠ 51 then
    some ({ header := zero_tag_header, extended_header := zero_extended_header,
            frames := [], success := 0 }, file1)
  else
    let e := read_tag_extended_header tag_header file1
    let extended_header := e.1
    let file2 := e.2
    let available_size :=
      sub32 (get_tag_size tag_header)
        (if extended_header.available = 1 then extended_header.pre_header.header_size else 0)
    match read_tag_frames (file2.bytes.length - file2.pos + 1) file2 available_size [] with
    | none => none
    | some (file3, _, frames) =>
      some ({ header := tag_header, extended_header := extended_header,
              frames := frames, success := 1 }, file3)

/-- The ten bytes of the tag header in memory order. -/
def tag_header_bytes (h : IDv3_2_3_tag_header) : List Byte :=
  [h.id.b0, h.id.b1, h.id.b2, h.version_1, h.version_2, h.flags] ++ h.raw_tag_size.toList

/-- The four bytes of a little-endian `unsigned __int32` in memory. -/
def le32_bytes (n : Nat) : List Byte :=
  [toByte n, toByte (n / 2 ^ 8), toByte (n / 2 ^ 16), toByte (n / 2 ^ 24)]

/-- The two bytes of a little-endian `WORD` in memory. -/
def le16_bytes (n : Nat) : List Byte := [toByte n, toByte (n / 2 ^ 8)]

/-- The first ten bytes of the memory of a `struct IDv3_2_3_tag_extended_pre_header`:
`header_size`, `flags`, two alignment bytes and the low half of `padding_size`
(`#pragma (push, 1)` is not a packing directive). -/
def pre_header_bytes10 (p : IDv3_2_3_tag_extended_pre_header) : List Byte :=
  le32_bytes p.header_size ++ le16_bytes p.flags ++ [0, 0] ++ (le32_bytes p.padding_size).take 2

/-- Function `write_tag` (lines 150-162): the bytes written to the output file.  For a tag
with extended header, `tag.extended_header.pre_header` stands for what the memory behind
the C pointer holds when `write_tag` runs. -/
def write_tag (tag : IDv3_2_3_tag) : List Byte :=
  tag_header_bytes tag.header
    ++ (if tag.extended_header.available = 1 then
          pre_header_bytes10 tag.extended_header.pre_header
            ++ (if tag.extended_header.pre_header.flags >>> 15 = 1 then
                  le32_bytes tag.extended_header.total_frame_crc
                else [])
        else [])
    ++ (tag.frames.map write_frame).flatten

/-! ## Mutation and rewrite (`main.c` lines 197-227 and 300-339) -/

/-- The search loop of `update_tag_by_name` (lines 198-203): the index of the frame the
pointer `frame` refers to after the loop, `none` for `NULL`. -/
def find_frame (frames : List IDv3_2_3_frame) (name : Bytes4) : Option Nat :=
  (List.range frames.length).foldl
    (fun frame i =>
      match frames[i]? with
      | some f => if eq_frame_id f.header.id name = 1 then some i else frame
      | none => frame)
    none

/-- Function `update_tag_by_name` (lines 197-227), without its output to `stdout`. -/
def update_tag_by_name (tag : IDv3_2_3_tag) (data : List Byte) (data_size : Nat)
    (name : Bytes4) : IDv3_2_3_tag :=
  match find_frame tag.frames name with
  | none =>
    let header : IDv3_2_3_frame_header :=
      { id := ⟨name.get 0, name.get 1, name.get 2, name.get 3⟩, size := data_size, flags := 0 }
    let new_frame : IDv3_2_3_frame := { header := header, data := data }
    { tag with
      frames := tag.frames ++ [new_frame]
      header := set_tag_size tag.header (add32 (get_tag_size tag.header) data_size) }
  | some i =>
    match tag.frames[i]? with
    | none => tag
    | some frame =>
      let old_size := frame.header.size
      let frame1 : IDv3_2_3_frame :=
        { header := { frame.header with size := data_size }, data := data }
      { tag with
        frames := tag.frames.set i frame1
        header :=
          set_tag_size tag.header (sub32 (add32 (get_tag_size tag.header) data_size) old_size) }

/-- The first copy loop of `main` (lines 317-320) run on the unread rest of the input:
`fread(&buffer, sizeof buffer, 1, file)` delivers an item only when four bytes are
left. -/
def copy_to_tmp : List Byte → List Byte
  | a :: b :: c :: d :: rest => a :: b :: c :: d :: copy_to_tmp rest
  | _ => []

/-- The second copy loop of `main` (lines 331-334) run on the temporary file:
`fread(&buffer, 1, sizeof buffer, tmp_file_n)` delivers up to four bytes and
`fwrite` writes as many as were read. -/
def copy_from_tmp : List Byte → List Byte
  | a :: b :: c :: d :: rest => a :: b :: c :: d :: copy_from_tmp rest
  | l => l

/-- The `--set` path of `main` (lines 300-338): from the content of the input file, the
text of `--value` and the four characters of `--set`, the content of the rewritten
file. -/
def main_set (content : List Byte) (value : List Byte) (set_frame_id : Bytes4) :
    Option (List Byte) :=
  match read_tag (fopen_rb content) with
  | none => none
  | some (tag, file) =>
    let data : List Byte := 0 :: value
    let tag1 := update_tag_by_name tag data ((value.length + 1) % 2 ^ 32) set_frame_id
    let tmp_file := copy_to_tmp (file.bytes.drop file.pos)
    some (write_tag tag1 ++ copy_from_tmp tmp_file)

/-! ## Size accounting -/

/-- The sum over the frames of `10 + frame.size`: the bytes the frames occupy in a file. -/
def frames_total (frames : List IDv3_2_3_frame) : Nat :=
  (frames.map (fun f => 10 + f.header.size)).sum

/-- The byte length of the extended header in a file: nothing when it is absent, else the
six pre-header bytes that `read_tag` reads plus the four CRC bytes when the CRC flag is
set. -/
def extended_header_length (e : IDv3_2_3_tag_extended_header) : Nat :=
  if e.available = 1 then 6 + (if e.pre_header.flags >>> 15 = 1 then 4 else 0) else 0

/-- The header-size invariant: the decoded header size equals the extended-header length
plus the bytes the frames occupy. -/
def tag_size_invariant (tag : IDv3_2_3_tag) : Prop :=
  get_tag_size tag.header = extended_header_length tag.extended_header + frames_total tag.frames

instance (tag : IDv3_2_3_tag) : Decidable (tag_size_invariant tag) := by
  unfold tag_size_invariant
  infer_instance

/-! ## Sample values -/

/-- The frame id `TIT2`. -/
def id_TIT2 : Bytes4 := ⟨84, 73, 84, 50⟩

/-- The frame id `TPE1`. -/
def id_TPE1 : Bytes4 := ⟨84, 80, 69, 49⟩

/-- A header `ID3 3 0`, flags 0, with the given four size bytes. -/
def sample_header (raw : Bytes4) : IDv3_2_3_tag_header :=
  { id := ⟨73, 68, 51⟩, version_1 := 3, version_2 := 0, flags := 0, raw_tag_size := raw }

/-- A tag without frames and with declared size 0. -/
def sample_tag_empty : IDv3_2_3_tag :=
  { header := sample_header ⟨0, 0, 0, 0⟩, extended_header := zero_extended_header,
    frames := [], success := 1 }

/-- A tag with frames `TIT2`, `TPE1`, `TIT2` (payloads of 2, 3 and 2 bytes) and declared
size 37. -/
def sample_tag_dup : IDv3_2_3_tag :=
  { header := sample_header ⟨0, 0, 0, 37⟩, extended_header := zero_extended_header,
    frames :=
      [{ header := { id := id_TIT2, size := 2, flags := 0 }, data := [0, 97] },
       { header := { id := id_TPE1, size := 3, flags := 0 }, data := [0, 98, 99] },
       { header := { id := id_TIT2, size := 2, flags := 0 }, data := [0, 100] }],
    success := 1 }

/-- The tag that `read_tag` returns for the 20-byte file `ID3 3 0 0 7F 7F 7F 7F` followed by
an empty `TIT2` frame: declared size `2^28 - 1`, one frame of size 0. -/
def sample_tag_full : IDv3_2_3_tag :=
  { header := sample_header ⟨127, 127, 127, 127⟩, extended_header := zero_extended_header,
    frames := [{ header := { id := id_TIT2, size := 0, flags := 0 }, data := [] }],
    success := 1 }

/-- A 35-byte stream: a header declaring size 25, a `TIT2` frame with 13 payload bytes, two
zero bytes. -/
def sample_stream_padded : List Byte :=
  [73, 68, 51, 3, 0, 0, 0, 0, 0, 25,
   84, 73, 84, 50, 0, 0, 0, 13, 0, 0,
   0, 72, 101, 108, 108, 111, 32, 87, 111, 114, 108, 100, 33,
   0, 0]

/-! ## Display and query (`main.c` lines 164-195 and 342-354) -/

/-- The C string that starts at a pointer: the bytes of the memory up to the first zero
byte. -/
def c_string : List Byte → List Byte
  | [] => []
  | x :: xs => if x = 0 then [] else x :: c_string xs

/-- The wide string that starts at a pointer (`wchar_t` of 16 bits, little-endian): the
code units up to the first zero unit. -/
def wide_string : List Byte → List Nat
  | a :: b :: rest => if le16 a b = 0 then [] else le16 a b :: wide_string rest
  | _ => []

/-- The characters of the literal `"image"`. -/
def image_text : List Nat := [105, 109, 97, 103, 101]

/-- The characters of the literal `"APIC"`. -/
def apic_text : List Byte := [65, 80, 73, 67]

/-- The loop of lines 178-185, from index `j` on; `fuel` bounds the iterations, every
iteration increases `j`, so `size - j` iterations are enough.  The result is the
characters printed. -/
def print_text_loop (data : List Byte) (size : Nat) : Nat → Nat → List Nat
  | 0, _ => []
  | fuel + 1, j =>
    if j < size then
      if (byteAt data j).val = 0xFF ∧ (byteAt data (j + 1)).val = 0xFE then
        wide_string (data.drop (j + 2))
          ++ print_text_loop data size fuel (j + (wide_string (data.drop (j + 2))).length * 2 + 1)
      else
        (byteAt data j).val :: print_text_loop data size fuel (j + 1)
    else []

/-- Function `print_frame_data` (lines 164-191): the characters written to `stdout`, one
number per `printf` character (`%c` gives the byte, `%C` and `%ls` give 16-bit code
units).  `id` and `data` are the memory from the two pointers on, `data` reaching past
the `size` payload bytes as far as the function reads. -/
def print_frame_data (id : List Byte) (data : List Byte) (size : Nat) : List Nat :=
  if c_string id = apic_text then image_text
  else if (byteAt data 0).val = 0x01 ∧ (byteAt data 1).val = 0xFF
      ∧ (byteAt data 2).val = 0xFE then
    (List.range' 3 (size - 3)).map (fun i => le16 (byteAt data i) (byteAt data (i + 1)))
  else if byteAt data size = 0 then
    print_text_loop data size size (if byteAt data 0 = 0 then 1 else 0)
  else
    (List.range size).map (fun j => (byteAt data j).val)

/-- Function `print_frame_data_by_frame` (lines 193-195); `after` is the memory that
follows the payload buffer. -/
def print_frame_data_by_frame (frame : IDv3_2_3_frame) (after : List Byte) : List Nat :=
  print_frame_data (frame_header_bytes frame.header) (frame.data ++ after) frame.header.size

/-- The search loop of the `--get` path of `main` (lines 343-348) and the pointer test of
line 349: the frame that is printed, `none` when `No frame found` is printed. -/
def main_get (tag : IDv3_2_3_tag) (get_frame_id : Bytes4) : Option IDv3_2_3_frame :=
  let frame : Option Nat :=
    (List.range tag.count_of_frames).foldl
      (fun frame i =>
        match tag.frames[i]? with
        | some f => if eq_frame_id f.header.id get_frame_id = 1 then some i else frame
        | none => frame)
      none
  match frame with
  | some i => tag.frames[i]?
  | none => none


/-- The decoding formula of the specification, `Σ (b_i & 0x7F) << (7 * (3 - i))`; it is
not taken from the code and serves for comparison with `get_tag_size`. -/
def decode_synchsafe_spec (raw : Bytes4) : Nat :=
  ((List.range 4).map (fun i => ((raw.get i).val &&& 0x7F) <<< (7 * (3 - i)))).sum

/-- A 20-byte stream: a header declaring size 10 and a frame header with id `T T 2 0`
(last id byte zero), size 0. -/
def sample_stream_short_id : List Byte :=
  [73, 68, 51, 3, 0, 0, 0, 0, 0, 10,
   84, 84, 50, 0, 0, 0, 0, 0, 0, 0]

/-- A 16-byte stream: a header with the extended-header flag (`0x40`) and declared size 6,
followed by the six pre-header bytes `00 00 00 06 00 00`. -/
def sample_stream_extended : List Byte :=
  [73, 68, 51, 3, 0, 64, 0, 0, 0, 6,
   0, 0, 0, 6, 0, 0]


/-- A frame as `read_tag` stores it and `write_frame` can write it back: four non-zero id
bytes, a data buffer of exactly `size` bytes and 16-bit flags. -/
def frame_well_formed (f : IDv3_2_3_frame) : Prop :=
  f.header.id.get 0 ≠ 0 ∧ f.header.id.get 1 ≠ 0 ∧ f.header.id.get 2 ≠ 0 ∧ f.header.id.get 3 ≠ 0
    ∧ f.data.length = f.header.size ∧ f.header.flags < 2 ^ 16

instance (f : IDv3_2_3_frame) : Decidable (frame_well_formed f) := by
  unfold frame_well_formed
  infer_instance

/-- A 49-byte file: a header declaring size 35, a `TIT2` frame with 13 payload bytes, twelve
zero bytes of padding and four audio bytes. -/
def sample_file_padded : List Byte :=
  [73, 68, 51, 3, 0, 0, 0, 0, 0, 35,
   84, 73, 84, 50, 0, 0, 0, 13, 0, 0,
   0, 72, 101, 108, 108, 111, 32, 87, 111, 114, 108, 100, 33,
   0, 0, 0, 0, 0, 0, 0, 0, 0, 0, 0, 0,
   255, 251, 144, 100]

/-! ## The frame array of `read_tag` (`main.c` lines 131-133 and 143) -/

/-- The value of `sizeof (struct IDv3_2_3_frame)` on 64-bit targets: the header structure
of 12 bytes (ten bytes of fields, two of alignment), four bytes of alignment and the data
pointer of eight bytes.  On 32-bit targets the value is 16. -/
def sizeof_frame : Nat := 24

/-- The number of bytes `read_tag` allocates for the frame array: the value of
`available_size` of line 131, passed to `calloc(1, available_size)` in line 133. -/
def read_tag_allocation (file : FILE) : Nat :=
  let tag_header := read_tag_header file
  let e := read_tag_extended_header tag_header (file.advance 10)
  sub32 (get_tag_size tag_header)
    (if e.1.available = 1 then e.1.pre_header.header_size else 0)

/-- The stores `tag.frames[count_of_frames] = frame` of line 143 all lie inside an array
allocated with `available_size` bytes when `count_of_frames` structures fit into it. -/
def frame_array_in_bounds (available_size count_of_frames : Nat) : Prop :=
  sizeof_frame * count_of_frames ≤ available_size

instance (available_size count_of_frames : Nat) :
    Decidable (frame_array_in_bounds available_size count_of_frames) := by
  unfold frame_array_in_bounds
  infer_instance

/-! ## Synchsafe size field -/

theorem or_shift_eq_add (a b c d : Nat) (hb : b < 128) (hc : c < 128) (hd : d < 128) :
    0 ||| a <<< 21 ||| b <<< 14 ||| c <<< 7 ||| d <<< 0
      = a * 2 ^ 21 + b * 2 ^ 14 + c * 2 ^ 7 + d := by
  have h1 : 2 ^ 21 * a + b * 2 ^ 14 = 2 ^ 21 * a ||| b * 2 ^ 14 :=
    Nat.mul_add_lt_is_or (by omega) a
  have h2 : 2 ^ 14 * (a * 2 ^ 7 + b) + c * 2 ^ 7 = 2 ^ 14 * (a * 2 ^ 7 + b) ||| c * 2 ^ 7 :=
    Nat.mul_add_lt_is_or (by omega) _
  have h3 : 2 ^ 7 * (a * 2 ^ 14 + b * 2 ^ 7 + c) + d = 2 ^ 7 * (a * 2 ^ 14 + b * 2 ^ 7 + c) ||| d :=
    Nat.mul_add_lt_is_or (by omega) _
  have e1 : a <<< 21 = 2 ^ 21 * a := by rw [Nat.shiftLeft_eq]; omega
  have e2 : b <<< 14 = b * 2 ^ 14 := by rw [Nat.shiftLeft_eq]
  have e3 : c <<< 7 = c * 2 ^ 7 := by rw [Nat.shiftLeft_eq]
  have e4 : d <<< 0 = d := by simp
  rw [Nat.zero_or, e1, e2, e3, e4, ← h1]
  have e5 : 2 ^ 21 * a + b * 2 ^ 14 = 2 ^ 14 * (a * 2 ^ 7 + b) := by omega
  rw [e5, ← h2]
  have e6 : 2 ^ 14 * (a * 2 ^ 7 + b) + c * 2 ^ 7 = 2 ^ 7 * (a * 2 ^ 14 + b * 2 ^ 7 + c) := by omega
  rw [e6, ← h3]
  omega

theorem set_tag_size_eq (h : IDv3_2_3_tag_header) (x : Nat) :
    set_tag_size h x
      = { h with raw_tag_size :=
            ⟨toByte (x / 2 ^ 21 % 128), toByte (x / 2 ^ 14 % 128), toByte (x / 2 ^ 7 % 128),
              toByte (x % 128)⟩ } := by
  have hm : ∀ y : Nat, y &&& 127 = y % 128 := fun y => Nat.and_pow_two_sub_one_eq_mod y 7
  simp [set_tag_size, List.range, List.range.loop, List.foldl, Bytes4.set, hm,
    Nat.shiftRight_eq_div_pow]

theorem get_set_tag_size (h : IDv3_2_3_tag_header) (x : Nat) :
    get_tag_size (set_tag_size h x) = x % 2 ^ 28 := by
  have hv : ∀ y : Nat, (toByte (y % 128)).val = y % 128 := by
    intro y; simp only [toByte]; omega
  simp only [get_tag_size, set_tag_size_eq, List.range, List.range.loop, List.foldl,
    Bytes4.get, hv]
  rw [or_shift_eq_add _ _ _ _ (by omega) (by omega) (by omega)]
  omega


/-- C2: for every `x` below `2^28`, `get_tag_size` applied to the header written by
`set_tag_size` with `x` returns `x`. -/
theorem get_tag_size_set_tag_size (h : IDv3_2_3_tag_header) (x : Nat) (hx : x < 2 ^ 28) :
    get_tag_size (set_tag_size h x) = x := by
  rw [get_set_tag_size]
  omega

/-- C2 at the header `ID3 3 0` and `x = 23`. -/
theorem get_tag_size_set_tag_size_witness :
    get_tag_size (set_tag_size (sample_header ⟨0, 0, 0, 0⟩) 23) = 23 :=
  get_tag_size_set_tag_size (sample_header ⟨0, 0, 0, 0⟩) 23 (by decide)

/-- C10 as stated fails: for `x = 2^28` the call `set_tag_size` reports nothing, it stores
the four size bytes `0 0 0 0`, which decode to 0. -/
theorem set_tag_size_no_range_error :
    (set_tag_size (sample_header ⟨1, 2, 3, 4⟩) (2 ^ 28)).raw_tag_size = ⟨0, 0, 0, 0⟩
      ∧ get_tag_size (set_tag_size (sample_header ⟨1, 2, 3, 4⟩) (2 ^ 28)) = 0 := by
  decide

/-- C10 (amended): for every `x` of at least `2^28`, `set_tag_size` stores the four 7-bit
groups of the low 28 bits of `x` (it has no failure result), so that the stored size
decodes to `x mod 2^28`, which differs from `x`; every other header field is kept. -/
theorem set_tag_size_truncates (h : IDv3_2_3_tag_header) (x : Nat) (hx : 2 ^ 28 ≤ x) :
    set_tag_size h x
        = { h with raw_tag_size :=
              ⟨toByte (x / 2 ^ 21 % 128), toByte (x / 2 ^ 14 % 128), toByte (x / 2 ^ 7 % 128),
                toByte (x % 128)⟩ }
      ∧ get_tag_size (set_tag_size h x) = x % 2 ^ 28
      ∧ get_tag_size (set_tag_size h x) ≠ x := by
  refine ⟨set_tag_size_eq h x, get_set_tag_size h x, ?_⟩
  rw [get_set_tag_size]
  omega

/-- C10 (amended) at `x = 2^28 + 5`. -/
theorem set_tag_size_truncates_witness :
    set_tag_size (sample_header ⟨1, 2, 3, 4⟩) (2 ^ 28 + 5)
        = sample_header ⟨0, 0, 0, 5⟩
      ∧ get_tag_size (set_tag_size (sample_header ⟨1, 2, 3, 4⟩) (2 ^ 28 + 5)) = 5 := by
  have h := set_tag_size_truncates (sample_header ⟨1, 2, 3, 4⟩) (2 ^ 28 + 5) (by decide)
  refine ⟨h.1.trans (by decide), h.2.1.trans (by decide)⟩

/-! ## Frame codec -/

theorem toByte_val (b : Byte) : toByte b.val = b := by
  apply Fin.ext
  simp only [toByte]
  have := b.isLt
  omega

theorem be32_bytes_be32 (a b c d : Byte) : be32_bytes (be32 a b c d) = [a, b, c, d] := by
  have ha := a.isLt
  have hb := b.isLt
  have hc := c.isLt
  have hd := d.isLt
  simp only [be32_bytes, be32, toByte, List.cons.injEq, and_true]
  refine ⟨?_, ?_, ?_, ?_⟩ <;> apply Fin.ext <;> simp only <;> omega

theorem be16_bytes_be16 (a b : Byte) : be16_bytes (be16 a b) = [a, b] := by
  have ha := a.isLt
  have hb := b.isLt
  simp only [be16_bytes, be16, toByte, List.cons.injEq, and_true]
  refine ⟨?_, ?_⟩ <;> apply Fin.ext <;> simp only <;> omega

theorem split_ten (b : List Byte) (h : 10 ≤ b.length) :
    ∃ i0 i1 i2 i3 s0 s1 s2 s3 f0 f1 payload,
      b = i0 :: i1 :: i2 :: i3 :: s0 :: s1 :: s2 :: s3 :: f0 :: f1 :: payload := by
  match b, h with
  | i0 :: i1 :: i2 :: i3 :: s0 :: s1 :: s2 :: s3 :: f0 :: f1 :: payload, _ =>
    exact ⟨i0, i1, i2, i3, s0, s1, s2, s3, f0, f1, payload, rfl⟩

/-- Reading a frame that lies complete in the stream at the current position. -/
theorem read_frame_at (pre post payload : List Byte) (i0 i1 i2 i3 s0 s1 s2 s3 f0 f1 : Byte)
    (hsize : payload.length = be32 s0 s1 s2 s3) :
    read_frame
        { bytes := pre ++ (i0 :: i1 :: i2 :: i3 :: s0 :: s1 :: s2 :: s3 :: f0 :: f1 :: payload)
            ++ post,
          pos := pre.length }
      = ({ header := { id := ⟨i0, i1, i2, i3⟩, size := payload.length, flags := be16 f0 f1 },
           data := payload },
         { bytes := pre ++ (i0 :: i1 :: i2 :: i3 :: s0 :: s1 :: s2 :: s3 :: f0 :: f1 :: payload)
            ++ post,
           pos := pre.length + 10 + payload.length }) := by
  simp only [read_frame, FILE.peek, FILE.advance, byteAt, zeroPad]
  simp [← hsize, List.take_append_eq_append_take]
  omega

/-- C3: for a byte sequence made of four id bytes, a four-byte big-endian size `n`, two
flag bytes and exactly `n` payload bytes, `write_frame` of the frame that `read_frame`
reads from it emits the sequence again (and `read_frame` consumes all of it). -/
theorem write_frame_read_frame (b : List Byte) (hlen : 10 ≤ b.length)
    (hsize : b.length = 10 + be32 (byteAt b 4) (byteAt b 5) (byteAt b 6) (byteAt b 7)) :
    write_frame (read_frame (fopen_rb b)).1 = b
      ∧ (read_frame (fopen_rb b)).2.pos = b.length := by
  obtain ⟨i0, i1, i2, i3, s0, s1, s2, s3, f0, f1, payload, rfl⟩ := split_ten b hlen
  have hp : payload.length = be32 s0 s1 s2 s3 := by
    simp [byteAt] at hsize
    omega
  have h := read_frame_at [] [] payload i0 i1 i2 i3 s0 s1 s2 s3 f0 f1 hp
  simp only [List.nil_append, List.append_nil, List.length_nil, Nat.zero_add] at h
  rw [fopen_rb, h]
  refine ⟨?_, ?_⟩
  · simp only [write_frame, frame_header_bytes, Bytes4.toList, List.take_length]
    rw [hp, be32_bytes_be32, be16_bytes_be16]
    rfl
  · simp only [List.length_cons]
    omega

theorem write_frame_read_frame_witness :
    write_frame (read_frame (fopen_rb [84, 73, 84, 50, 0, 0, 0, 2, 0, 0, 0, 65])).1
        = [84, 73, 84, 50, 0, 0, 0, 2, 0, 0, 0, 65]
      ∧ (read_frame (fopen_rb [84, 73, 84, 50, 0, 0, 0, 2, 0, 0, 0, 65])).2.pos = 12 :=
  write_frame_read_frame [84, 73, 84, 50, 0, 0, 0, 2, 0, 0, 0, 65] (by decide) (by decide)


/-! ## Frame lookup and mutation -/

theorem eq_frame_id_eq_one (a b : Bytes4) : eq_frame_id a b = 1 ↔ a = b := by
  cases a; cases b
  simp only [eq_frame_id, Bytes4.get, Bytes4.mk.injEq]
  split_ifs <;> simp_all

/-- The state of the search loop of `update_tag_by_name` after `n` iterations. -/
theorem find_frame_loop (frames : List IDv3_2_3_frame) (name : Bytes4) (n : Nat) :
    match (List.range n).foldl
        (fun frame i =>
          match frames[i]? with
          | some f => if eq_frame_id f.header.id name = 1 then some i else frame
          | none => frame)
        (none : Option Nat) with
    | none => ∀ j f, j < n → frames[j]? = some f → f.header.id ≠ name
    | some i => i < n ∧ (∃ f, frames[i]? = some f ∧ f.header.id = name)
        ∧ ∀ j f, i < j → j < n → frames[j]? = some f → f.header.id ≠ name := by
  induction n with
  | zero => simp
  | succ n ih =>
    rw [List.range_succ, List.foldl_append]
    simp only [List.foldl_cons, List.foldl_nil]
    generalize (List.range n).foldl
        (fun frame i =>
          match frames[i]? with
          | some f => if eq_frame_id f.header.id name = 1 then some i else frame
          | none => frame)
        (none : Option Nat) = r at ih ⊢
    cases hn : frames[n]? with
    | none =>
      simp only
      cases r with
      | none =>
        simp only at ih ⊢
        intro j f hj hf
        rcases Nat.lt_succ_iff_lt_or_eq.mp hj with h | h
        · exact ih j f h hf
        · subst h; rw [hn] at hf; cases hf
      | some i =>
        simp only at ih ⊢
        refine ⟨by omega, ih.2.1, ?_⟩
        intro j f hij hj hf
        rcases Nat.lt_succ_iff_lt_or_eq.mp hj with h | h
        · exact ih.2.2 j f hij h hf
        · subst h; rw [hn] at hf; cases hf
    | some g =>
      simp only
      by_cases hg : eq_frame_id g.header.id name = 1
      · simp only [hg, if_true]
        refine ⟨by omega, ⟨g, hn, (eq_frame_id_eq_one _ _).mp hg⟩, ?_⟩
        intro j f hij hj _
        omega
      · simp only [hg, if_false]
        have hg2 : g.header.id ≠ name := fun h => hg ((eq_frame_id_eq_one _ _).mpr h)
        cases r with
        | none =>
          simp only at ih ⊢
          intro j f hj hf
          rcases Nat.lt_succ_iff_lt_or_eq.mp hj with h | h
          · exact ih j f h hf
          · subst h; rw [hn] at hf; cases hf; exact hg2
        | some i =>
          simp only at ih ⊢
          refine ⟨by omega, ih.2.1, ?_⟩
          intro j f hij hj hf
          rcases Nat.lt_succ_iff_lt_or_eq.mp hj with h | h
          · exact ih.2.2 j f hij h hf
          · subst h; rw [hn] at hf; cases hf; exact hg2

theorem find_frame_none (frames : List IDv3_2_3_frame) (name : Bytes4)
    (h : ∀ f ∈ frames, f.header.id ≠ name) : find_frame frames name = none := by
  have hl := find_frame_loop frames name frames.length
  unfold find_frame
  split at hl
  · assumption
  · rename_i i _
    obtain ⟨_, ⟨f, hf, hid⟩, _⟩ := hl
    exact absurd hid (h f (List.getElem?_mem hf))

theorem find_frame_some (frames : List IDv3_2_3_frame) (name : Bytes4)
    (h : ∃ f ∈ frames, f.header.id = name) :
    ∃ i f, find_frame frames name = some i ∧ frames[i]? = some f ∧ f.header.id = name
      ∧ ∀ j g, i < j → frames[j]? = some g → g.header.id ≠ name := by
  have hl := find_frame_loop frames name frames.length
  unfold find_frame
  split at hl
  · rename_i heq
    obtain ⟨f, hf, hid⟩ := h
    obtain ⟨j, hj, hjf⟩ := List.getElem_of_mem hf
    exact absurd hid (hl j f hj (by rw [List.getElem?_eq_getElem hj, hjf]))
  · rename_i i heq
    obtain ⟨_, ⟨f, hf, hid⟩, hlast⟩ := hl
    refine ⟨i, f, heq, hf, hid, ?_⟩
    intro j g hij hg
    have hj : j < frames.length := by
      by_contra hc
      rw [List.getElem?_eq_none (by omega)] at hg
      cases hg
    exact hlast j g hij hj hg


theorem update_tag_by_name_of_none (tag : IDv3_2_3_tag) (data : List Byte) (data_size : Nat)
    (name : Bytes4) (h : find_frame tag.frames name = none) :
    update_tag_by_name tag data data_size name
      = { tag with
          frames := tag.frames ++ [{ header := { id := name, size := data_size, flags := 0 },
                                     data := data }]
          header := set_tag_size tag.header (add32 (get_tag_size tag.header) data_size) } := by
  cases name
  simp [update_tag_by_name, h, Bytes4.get]

theorem update_tag_by_name_of_some (tag : IDv3_2_3_tag) (data : List Byte) (data_size : Nat)
    (name : Bytes4) (i : Nat) (f : IDv3_2_3_frame) (h : find_frame tag.frames name = some i)
    (hf : tag.frames[i]? = some f) :
    update_tag_by_name tag data data_size name
      = { tag with
          frames := tag.frames.set i
            { header := { id := f.header.id, size := data_size, flags := f.header.flags },
              data := data }
          header := set_tag_size tag.header
            (sub32 (add32 (get_tag_size tag.header) data_size) f.header.size) } := by
  simp [update_tag_by_name, h, hf]

/-- C6: when no frame of the tag has the requested id, `update_tag_by_name` makes the frame
count one larger and the frame sequence is the old one followed by a new last frame whose
id is the requested four bytes, whose flags are 0, whose size is the payload length passed
and whose data is the payload passed. -/
theorem update_tag_by_name_absent (tag : IDv3_2_3_tag) (data : List Byte) (data_size : Nat)
    (name : Bytes4) (h : ∀ f ∈ tag.frames, f.header.id ≠ name) :
    (update_tag_by_name tag data data_size name).count_of_frames = tag.count_of_frames + 1
      ∧ (update_tag_by_name tag data data_size name).frames
          = tag.frames ++ [{ header := { id := name, size := data_size, flags := 0 },
                             data := data }]
      ∧ (update_tag_by_name tag data data_size name).frames.getLast?
          = some { header := { id := name, size := data_size, flags := 0 }, data := data } := by
  rw [update_tag_by_name_of_none tag data data_size name (find_frame_none _ _ h)]
  simp [IDv3_2_3_tag.count_of_frames]

/-- C7: when the requested id occurs in the tag, `update_tag_by_name` rewrites exactly one
frame, the last one in file order carrying that id: it keeps its id and flags and receives
the new size and payload; the frame sequence keeps its length and every other position,
earlier frames with the same id included, holds the frame it held before. -/
theorem update_tag_by_name_last (tag : IDv3_2_3_tag) (data : List Byte) (data_size : Nat)
    (name : Bytes4) (h : ∃ f ∈ tag.frames, f.header.id = name) :
    ∃ (i : Nat) (f : IDv3_2_3_frame), tag.frames[i]? = some f ∧ f.header.id = name
      ∧ (∀ (j : Nat) (g : IDv3_2_3_frame), i < j → tag.frames[j]? = some g → g.header.id ≠ name)
      ∧ (update_tag_by_name tag data data_size name).frames.length = tag.frames.length
      ∧ (update_tag_by_name tag data data_size name).frames[i]?
          = some { header := { id := f.header.id, size := data_size, flags := f.header.flags },
                   data := data }
      ∧ ∀ j, j ≠ i →
          (update_tag_by_name tag data data_size name).frames[j]? = tag.frames[j]? := by
  obtain ⟨i, f, hfind, hf, hid, hlast⟩ := find_frame_some tag.frames name h
  refine ⟨i, f, hf, hid, hlast, ?_⟩
  rw [update_tag_by_name_of_some tag data data_size name i f hfind hf]
  have hi : i < tag.frames.length := by
    obtain ⟨hi, _⟩ := List.getElem?_eq_some.mp hf
    exact hi
  refine ⟨by simp, ?_, ?_⟩
  · simp [List.getElem?_set, hi]
  · intro j hj
    simp [List.getElem?_set, Ne.symm hj]

/-- C5 (amended): when the requested id occurs in the tag, `update_tag_by_name` leaves the
frame count unchanged and, provided the replaced frame's size is a 32-bit value and the
adjusted size `get_tag_size + new - old` lies in `[0, 2^28)`, changes the decoded header
size by exactly `new - old`, where `old` is the size of the replaced (last matching)
frame. -/
theorem update_tag_by_name_size_delta (tag : IDv3_2_3_tag) (data : List Byte)
    (data_size : Nat) (name : Bytes4) (h : ∃ f ∈ tag.frames, f.header.id = name) :
    ∃ (i : Nat) (f : IDv3_2_3_frame), tag.frames[i]? = some f ∧ f.header.id = name
      ∧ (∀ (j : Nat) (g : IDv3_2_3_frame), i < j → tag.frames[j]? = some g → g.header.id ≠ name)
      ∧ (update_tag_by_name tag data data_size name).count_of_frames = tag.count_of_frames
      ∧ (f.header.size < 2 ^ 32 → f.header.size ≤ get_tag_size tag.header + data_size →
          get_tag_size tag.header + data_size - f.header.size < 2 ^ 28 →
          (get_tag_size (update_tag_by_name tag data data_size name).header : Int)
              - (get_tag_size tag.header : Int)
            = (data_size : Int) - (f.header.size : Int)) := by
  obtain ⟨i, f, hfind, hf, hid, hlast⟩ := find_frame_some tag.frames name h
  refine ⟨i, f, hf, hid, hlast, ?_⟩
  rw [update_tag_by_name_of_some tag data data_size name i f hfind hf]
  refine ⟨by simp [IDv3_2_3_tag.count_of_frames], ?_⟩
  intro h32 hle hlt
  simp only [get_set_tag_size, sub32, add32]
  omega

/-- C6 at the tag `sample_tag_empty`, which has no frame, and the id `TIT2`. -/
theorem update_tag_by_name_absent_witness :
    (∀ f ∈ sample_tag_empty.frames, f.header.id ≠ id_TIT2)
      ∧ (update_tag_by_name sample_tag_empty [0, 65] 2 id_TIT2).count_of_frames = 1
      ∧ (update_tag_by_name sample_tag_empty [0, 65] 2 id_TIT2).frames
          = [{ header := { id := id_TIT2, size := 2, flags := 0 }, data := [0, 65] }] := by
  have h := update_tag_by_name_absent sample_tag_empty [0, 65] 2 id_TIT2 (by decide)
  exact ⟨by decide, h.1, h.2.1⟩

/-- C7 at `sample_tag_dup`, whose first and third frames are `TIT2`: the third frame is
rewritten, the first and second stay. -/
theorem update_tag_by_name_last_witness :
    (∃ f ∈ sample_tag_dup.frames, f.header.id = id_TIT2)
      ∧ (update_tag_by_name sample_tag_dup [0, 65, 66] 3 id_TIT2).frames
          = [{ header := { id := id_TIT2, size := 2, flags := 0 }, data := [0, 97] },
             { header := { id := id_TPE1, size := 3, flags := 0 }, data := [0, 98, 99] },
             { header := { id := id_TIT2, size := 3, flags := 0 }, data := [0, 65, 66] }]
      ∧ ∃ (i : Nat) (f : IDv3_2_3_frame), sample_tag_dup.frames[i]? = some f
          ∧ f.header.id = id_TIT2
          ∧ (∀ (j : Nat) (g : IDv3_2_3_frame), i < j → sample_tag_dup.frames[j]? = some g →
              g.header.id ≠ id_TIT2)
          ∧ (update_tag_by_name sample_tag_dup [0, 65, 66] 3 id_TIT2).frames.length
              = sample_tag_dup.frames.length
          ∧ (update_tag_by_name sample_tag_dup [0, 65, 66] 3 id_TIT2).frames[i]?
              = some { header := { id := f.header.id, size := 3, flags := f.header.flags },
                       data := [0, 65, 66] }
          ∧ ∀ j, j ≠ i →
              (update_tag_by_name sample_tag_dup [0, 65, 66] 3 id_TIT2).frames[j]?
                = sample_tag_dup.frames[j]? :=
  ⟨by decide, by decide,
    update_tag_by_name_last sample_tag_dup [0, 65, 66] 3 id_TIT2 (by decide)⟩

/-- The tag `sample_tag_full` is what `read_tag` returns for a 20-byte file. -/
theorem read_tag_sample_tag_full :
    (read_tag (fopen_rb
        [73, 68, 51, 3, 0, 0, 127, 127, 127, 127, 84, 73, 84, 50, 0, 0, 0, 0, 0, 0])).map
      (fun r => r.1) = some sample_tag_full := by
  decide

/-- C5 as stated fails: on the tag `sample_tag_full` (declared size `2^28 - 1`, one empty
`TIT2` frame) replacing the payload by two bytes makes the decoded size 1, a change of
`2 - 2^28` and not of `2 - 0`. -/
theorem size_delta_wraps_at_28_bits :
    (∃ f ∈ sample_tag_full.frames, f.header.id = id_TIT2)
      ∧ get_tag_size sample_tag_full.header = 2 ^ 28 - 1
      ∧ get_tag_size (update_tag_by_name sample_tag_full [0, 65] 2 id_TIT2).header = 1
      ∧ (get_tag_size (update_tag_by_name sample_tag_full [0, 65] 2 id_TIT2).header : Int)
            - (get_tag_size sample_tag_full.header : Int)
          ≠ (2 : Int) - (0 : Int) := by
  decide

/-- C5 (amended) at `sample_tag_dup`: the third frame (size 2) receives three bytes and the
decoded size goes from 37 to 38. -/
theorem update_tag_by_name_size_delta_witness :
    (∃ f ∈ sample_tag_dup.frames, f.header.id = id_TIT2)
      ∧ (∃ (i : Nat) (f : IDv3_2_3_frame), sample_tag_dup.frames[i]? = some f
          ∧ f.header.id = id_TIT2
          ∧ (∀ (j : Nat) (g : IDv3_2_3_frame), i < j → sample_tag_dup.frames[j]? = some g →
              g.header.id ≠ id_TIT2)
          ∧ (update_tag_by_name sample_tag_dup [0, 65, 66] 3 id_TIT2).count_of_frames
              = sample_tag_dup.count_of_frames
          ∧ (f.header.size < 2 ^ 32 → f.header.size ≤ get_tag_size sample_tag_dup.header + 3 →
              get_tag_size sample_tag_dup.header + 3 - f.header.size < 2 ^ 28 →
              (get_tag_size (update_tag_by_name sample_tag_dup [0, 65, 66] 3 id_TIT2).header
                  : Int) - (get_tag_size sample_tag_dup.header : Int)
                = ((3 : Nat) : Int) - (f.header.size : Int)))
      ∧ get_tag_size sample_tag_dup.header = 37
      ∧ get_tag_size (update_tag_by_name sample_tag_dup [0, 65, 66] 3 id_TIT2).header = 38 := by
  obtain ⟨i, f, h⟩ :=
    update_tag_by_name_size_delta sample_tag_dup [0, 65, 66] 3 id_TIT2 (by decide)
  exact ⟨by decide, ⟨i, f, h⟩, by decide, by decide⟩

/-- C4 fails on the code: the tag `sample_tag_empty` (no frames, declared size 0), which
`read_tag` returns for the ten-byte file `ID3 3 0 0 0 0 0 0`, satisfies the header-size
invariant; after `update_tag_by_name` adds the absent frame `TIT2` with a
two-byte payload the decoded size is 2 while the frames occupy 12 bytes. -/
theorem update_tag_by_name_breaks_invariant :
    read_tag (fopen_rb [73, 68, 51, 3, 0, 0, 0, 0, 0, 0])
        = some (sample_tag_empty, { bytes := [73, 68, 51, 3, 0, 0, 0, 0, 0, 0], pos := 10 })
      ∧ tag_size_invariant sample_tag_empty
      ∧ (∀ f ∈ sample_tag_empty.frames, f.header.id ≠ id_TIT2)
      ∧ get_tag_size (update_tag_by_name sample_tag_empty [0, 65] 2 id_TIT2).header = 2
      ∧ frames_total (update_tag_by_name sample_tag_empty [0, 65] 2 id_TIT2).frames = 12
      ∧ ¬ tag_size_invariant (update_tag_by_name sample_tag_empty [0, 65] 2 id_TIT2) := by
  decide


/-! ## Size accounting of the mutation, and the rewrite path -/

theorem frames_total_append (frames : List IDv3_2_3_frame) (f : IDv3_2_3_frame) :
    frames_total (frames ++ [f]) = frames_total frames + (10 + f.header.size) := by
  simp [frames_total]

theorem frames_total_set (frames : List IDv3_2_3_frame) (i : Nat) (f g : IDv3_2_3_frame)
    (hf : frames[i]? = some f) :
    frames_total (frames.set i g) + f.header.size = frames_total frames + g.header.size := by
  induction frames generalizing i with
  | nil => simp at hf
  | cons a l ih =>
    cases i with
    | zero =>
      simp only [List.getElem?_cons_zero, Option.some.injEq] at hf
      subst hf
      simp only [frames_total, List.set_cons_zero, List.map_cons, List.sum_cons]
      omega
    | succ i =>
      simp only [List.getElem?_cons_succ] at hf
      have := ih i hf
      simp only [frames_total, List.set_cons_succ, List.map_cons, List.sum_cons] at this ⊢
      omega

/-- The size accounting of `update_tag_by_name` when the id is present: the header-size
invariant is kept whenever the new total fits the 28 bits of the size field. -/
theorem update_tag_by_name_present_invariant (tag : IDv3_2_3_tag) (data : List Byte)
    (data_size : Nat) (name : Bytes4) (h : ∃ f ∈ tag.frames, f.header.id = name)
    (hinv : tag_size_invariant tag)
    (hfit : extended_header_length tag.extended_header
      + frames_total (update_tag_by_name tag data data_size name).frames < 2 ^ 28) :
    tag_size_invariant (update_tag_by_name tag data data_size name) := by
  obtain ⟨i, f, hfind, hf, _, _⟩ := find_frame_some tag.frames name h
  rw [update_tag_by_name_of_some tag data data_size name i f hfind hf] at hfit ⊢
  simp only [tag_size_invariant] at hinv ⊢
  have hs := frames_total_set tag.frames i f
    { header := { id := f.header.id, size := data_size, flags := f.header.flags }, data := data }
    hf
  simp only at hs hfit
  simp only [get_set_tag_size, sub32, add32]
  omega

/-- The size accounting of `update_tag_by_name` when the id is absent: starting from a tag
that satisfies the header-size invariant, the decoded size afterwards is 10 less than the
invariant requires (whenever it fits the 28 bits of the size field). -/
theorem new_frame_size_accounting (tag : IDv3_2_3_tag) (data : List Byte)
    (data_size : Nat) (name : Bytes4) (h : ∀ f ∈ tag.frames, f.header.id ≠ name)
    (hinv : tag_size_invariant tag)
    (hfit : get_tag_size tag.header + data_size < 2 ^ 28) :
    get_tag_size (update_tag_by_name tag data data_size name).header + 10
      = extended_header_length (update_tag_by_name tag data data_size name).extended_header
        + frames_total (update_tag_by_name tag data data_size name).frames := by
  rw [update_tag_by_name_of_none tag data data_size name (find_frame_none _ _ h)]
  simp only [tag_size_invariant] at hinv
  simp only [get_set_tag_size, add32, frames_total_append]
  omega

theorem copy_from_tmp_eq (l : List Byte) : copy_from_tmp l = l := by
  induction l using copy_from_tmp.induct with
  | case1 a b c d rest ih => simp [copy_from_tmp, ih]
  | case2 l h => 
    unfold copy_from_tmp
    split
    · rename_i a b c d rest
      exact absurd rfl (h a b c d rest)
    · rfl

theorem copy_to_tmp_eq (l : List Byte) : copy_to_tmp l = l.take (4 * (l.length / 4)) := by
  induction l using copy_to_tmp.induct with
  | case1 a b c d rest ih =>
    have e : 4 * ((rest.length + 1 + 1 + 1 + 1) / 4) = 4 * (rest.length / 4) + 4 := by omega
    simp only [copy_to_tmp, ih, List.length_cons, e, List.take_succ_cons]
  | case2 l h =>
    unfold copy_to_tmp
    split
    · rename_i a b c d rest
      exact absurd rfl (h a b c d rest)
    · match l, h with
      | [], _ => rfl
      | [_], _ => simp
      | [_, _], _ => simp
      | [_, _, _], _ => simp
      | a :: b :: c :: d :: rest, h => exact absurd rfl (h a b c d rest)

/-- What the `--set` path writes: the rewritten tag followed by the unread rest of the input
cut down to a whole number of four-byte blocks. -/
theorem main_set_eq (content value : List Byte) (set_frame_id : Bytes4) (tag : IDv3_2_3_tag)
    (file : FILE) (h : read_tag (fopen_rb content) = some (tag, file)) :
    main_set content value set_frame_id
      = some (write_tag (update_tag_by_name tag (0 :: value) ((value.length + 1) % 2 ^ 32)
                set_frame_id)
          ++ (file.bytes.drop file.pos).take (4 * ((file.bytes.drop file.pos).length / 4))) := by
  simp only [main_set, h, copy_from_tmp_eq, copy_to_tmp_eq]

/-- C1 fails on the code: for the 15-byte file made of the header `ID3 3 0 0 0 0 0 0` and five
audio bytes, `read_tag` stops at offset 10 with the five audio bytes unread, and the `--set`
path writes the rewritten tag followed by the first four of them only: the fifth byte is
lost. -/
theorem main_set_drops_trailing_bytes :
    ∃ tag file,
      read_tag (fopen_rb [73, 68, 51, 3, 0, 0, 0, 0, 0, 0, 255, 251, 144, 100, 7])
          = some (tag, file)
      ∧ file.bytes.drop file.pos = [255, 251, 144, 100, 7]
      ∧ main_set [73, 68, 51, 3, 0, 0, 0, 0, 0, 0, 255, 251, 144, 100, 7] [65] id_TIT2
          = some (write_tag (update_tag_by_name tag [0, 65] 2 id_TIT2) ++ [255, 251, 144, 100])
      ∧ main_set [73, 68, 51, 3, 0, 0, 0, 0, 0, 0, 255, 251, 144, 100, 7] [65] id_TIT2
          ≠ some (write_tag (update_tag_by_name tag [0, 65] 2 id_TIT2)
                    ++ [255, 251, 144, 100, 7]) := by
  refine ⟨sample_tag_empty,
    { bytes := [73, 68, 51, 3, 0, 0, 0, 0, 0, 0, 255, 251, 144, 100, 7], pos := 10 }, ?_, ?_, ?_, ?_⟩
    <;> decide

/-! ## Reading a tag -/

theorem read_frame_bytes (file : FILE) : (read_frame file).2.bytes = file.bytes := rfl

theorem read_frame_progress (file : FILE) (h : (read_frame file).1.header.id.get 0 ≠ 0) :
    file.bytes.length - (read_frame file).2.pos < file.bytes.length - file.pos := by
  have hpos : file.pos < file.bytes.length := by
    by_contra hc
    apply h
    have : file.bytes.drop file.pos = [] := List.drop_eq_nil_of_le (by omega)
    simp [read_frame, FILE.peek, Bytes4.get, byteAt, this]
  simp only [read_frame, FILE.advance]
  omega

theorem read_tag_frames_terminates (fuel : Nat) :
    ∀ (file : FILE) (available_size : Nat) (frames : List IDv3_2_3_frame),
      file.bytes.length - file.pos < fuel →
      ∃ r, read_tag_frames fuel file available_size frames = some r := by
  induction fuel with
  | zero => intro file _ _ h; omega
  | succ fuel ih =>
    intro file available_size frames h
    unfold read_tag_frames
    by_cases ha : available_size > 0
    · simp only [ha, if_true]
      split
      · exact ⟨_, rfl⟩
      · rename_i hid
        apply ih
        have h0 : (read_frame file).1.header.id.get 0 ≠ 0 := fun hc => hid (Or.inl hc)
        have := read_frame_progress file h0
        rw [read_frame_bytes]
        omega
    · simp only [ha, if_false]
      exact ⟨_, rfl⟩


/-- The decoded size is below `2^29`: four bytes shifted by at most 21 bits. -/
theorem get_tag_size_lt (h : IDv3_2_3_tag_header) : get_tag_size h < 2 ^ 29 := by
  have h0 := (h.raw_tag_size.b0).isLt
  have h1 := (h.raw_tag_size.b1).isLt
  have h2 := (h.raw_tag_size.b2).isLt
  have h3 := (h.raw_tag_size.b3).isLt
  simp only [get_tag_size, List.range, List.range.loop, List.foldl, Bytes4.get,
    Nat.shiftLeft_eq, Nat.zero_or]
  refine Nat.or_lt_two_pow (Nat.or_lt_two_pow (Nat.or_lt_two_pow ?_ ?_) ?_) ?_ <;> omega

/-- The accounting kept by the frame loop: `available_size` stays a 32-bit value, the bytes
of the stored frames plus `available_size` stay constant modulo `2^32`, frames are only
added, and the loop ends with `available_size = 0` or at a frame header with a zero id
byte, ten bytes before the position that frame's `read_frame` reached. -/
theorem read_tag_frames_accounting (fuel : Nat) :
    ∀ (file : FILE) (available_size : Nat) (frames : List IDv3_2_3_frame)
      (file1 : FILE) (available1 : Nat) (frames1 : List IDv3_2_3_frame),
      read_tag_frames fuel file available_size frames = some (file1, available1, frames1) →
      available_size < 2 ^ 32 →
      available1 < 2 ^ 32
        ∧ (frames_total frames1 + available1) % 2 ^ 32
            = (frames_total frames + available_size) % 2 ^ 32
        ∧ frames_total frames ≤ frames_total frames1
        ∧ (available1 = 0
            ∨ ∃ g : FILE,
                ((read_frame g).1.header.id.get 0 = 0 ∨ (read_frame g).1.header.id.get 1 = 0
                  ∨ (read_frame g).1.header.id.get 2 = 0 ∨ (read_frame g).1.header.id.get 3 = 0)
                ∧ file1 = (read_frame g).2.seek_back10) := by
  induction fuel with
  | zero => intro file a frames file1 a1 frames1 h; simp [read_tag_frames] at h
  | succ fuel ih =>
    intro file a frames file1 a1 frames1 h ha32
    unfold read_tag_frames at h
    by_cases ha : a > 0
    · simp only [ha, if_true] at h
      split at h
      · rename_i hid
        simp only [Option.some.injEq, Prod.mk.injEq] at h
        obtain ⟨h1, h2, h3⟩ := h
        subst h1 h2 h3
        exact ⟨ha32, rfl, Nat.le_refl _, Or.inr ⟨file, hid, rfl⟩⟩
      · have hlt : sub32 a (add32 10 (read_frame file).1.header.size) < 2 ^ 32 := by
          simp only [sub32]
          omega
        obtain ⟨r1, r2, r3, r4⟩ := ih _ _ _ _ _ _ h hlt
        refine ⟨r1, ?_, ?_, r4⟩
        · rw [r2, frames_total_append]
          simp only [sub32, add32]
          omega
        · rw [frames_total_append] at r3
          omega
    · simp only [ha, if_false, Option.some.injEq, Prod.mk.injEq] at h
      obtain ⟨h1, h2, h3⟩ := h
      subst h1 h2 h3
      exact ⟨ha32, rfl, Nat.le_refl _, Or.inl (by omega)⟩

theorem header_id_check (file : FILE) :
    ((read_tag_header file).id.b0 ≠ 73 ∨ (read_tag_header file).id.b1 ≠ 68
        ∨ (read_tag_header file).id.b2 ≠ 51)
      ↔ file.peek 3 ≠ [73, 68, 51] := by
  simp only [read_tag_header, FILE.peek, byteAt]
  generalize file.bytes.drop file.pos = l
  match l with
  | [] => simp
  | [a] => simp
  | [a, b] => simp
  | a :: b :: c :: rest =>
    simp only [List.take_succ_cons, List.take_zero, List.getD_cons_zero, List.getD_cons_succ,
      ne_eq, List.cons.injEq, and_true]
    tauto


/-- C8: `read_tag` returns on every stream; when the first three bytes at the read position
are not `I`, `D`, `3` (also when fewer than three bytes exist) the tag returned has
`success = 0` and no frames, and when they are `I`, `D`, `3` the tag returned has
`success = 1`. -/
theorem read_tag_success (file : FILE) :
    (file.peek 3 ≠ [73, 68, 51] →
        ∃ tag file1, read_tag file = some (tag, file1) ∧ tag.success = 0
          ∧ tag.count_of_frames = 0 ∧ tag.frames = [])
      ∧ (file.peek 3 = [73, 68, 51] →
          ∃ tag file1, read_tag file = some (tag, file1) ∧ tag.success = 1) := by
  constructor
  · intro h
    have hc := (header_id_check file).mpr h
    exact ⟨{ header := zero_tag_header, extended_header := zero_extended_header,
             frames := [], success := 0 }, file.advance 10,
      by simp only [read_tag, hc, if_true], rfl, rfl, rfl⟩
  · intro h
    have hc : ¬ ((read_tag_header file).id.b0 ≠ 73 ∨ (read_tag_header file).id.b1 ≠ 68
        ∨ (read_tag_header file).id.b2 ≠ 51) := fun hc => (header_id_check file).mp hc h
    obtain ⟨⟨file3, a, frames⟩, hr⟩ :=
      read_tag_frames_terminates
        ((read_tag_extended_header (read_tag_header file) (file.advance 10)).2.bytes.length
          - (read_tag_extended_header (read_tag_header file) (file.advance 10)).2.pos + 1)
        (read_tag_extended_header (read_tag_header file) (file.advance 10)).2
        (sub32 (get_tag_size (read_tag_header file))
          (if (read_tag_extended_header (read_tag_header file) (file.advance 10)).1.available = 1
            then (read_tag_extended_header (read_tag_header file)
              (file.advance 10)).1.pre_header.header_size
            else 0))
        [] (by omega)
    exact ⟨{ header := read_tag_header file,
             extended_header :=
               (read_tag_extended_header (read_tag_header file) (file.advance 10)).1,
             frames := frames, success := 1 }, file3,
      by simp only [read_tag, hc, if_false, hr], rfl⟩

/-- C8 on the 3-byte stream `ID3` and on the empty stream. -/
theorem read_tag_success_witness :
    (∃ tag file1, read_tag (fopen_rb [73, 68, 51]) = some (tag, file1) ∧ tag.success = 1)
      ∧ (∃ tag file1, read_tag (fopen_rb []) = some (tag, file1) ∧ tag.success = 0
          ∧ tag.count_of_frames = 0 ∧ tag.frames = []) :=
  ⟨(read_tag_success (fopen_rb [73, 68, 51])).2 (by decide),
   (read_tag_success (fopen_rb [])).1 (by decide)⟩

/-- C9 as stated fails: in the 35-byte stream made of a header declaring size 11, a `TIT2`
frame with 13 payload bytes and two further bytes, `read_tag` succeeds and stores the frame,
which occupies 23 bytes, more than the declared 11; `available_size` has wrapped, the loop
has gone on to read the two further bytes and the stream is left at offset 25. -/
theorem read_tag_overshoots_declared_size :
    (read_tag (fopen_rb
        [73, 68, 51, 3, 0, 0, 0, 0, 0, 11,
         84, 73, 84, 50, 0, 0, 0, 13, 0, 0,
         0, 72, 101, 108, 108, 111, 32, 87, 111, 114, 108, 100, 33,
         255, 0])).map
      (fun r => (r.1.success, get_tag_header_flag r.1.header 1, get_tag_size r.1.header,
        r.1.count_of_frames, frames_total r.1.frames, r.2.pos))
      = some (1, 0, 11, 1, 23, 25) := by
  decide

/-- C9 (amended): for every stream that starts with `I`, `D`, `3` and has the extended-header
flag clear, `read_tag` returns a tag whose frames were produced by the frame loop started
right after the ten header bytes with the decoded size `S`; whenever the frames stored
occupy at most `S` bytes, their bytes plus the loop's remaining `available_size` equal `S`;
and the loop has stopped because `available_size` is 0 or because the next frame header
has a zero id byte (the stream is then moved back ten bytes). -/
theorem read_tag_size_accounting (file : FILE) (hid : file.peek 3 = [73, 68, 51])
    (hext : get_tag_header_flag (read_tag_header file) 1 = 0) :
    ∃ tag file1 available fuel,
      read_tag file = some (tag, file1)
      ∧ tag.header = read_tag_header file
      ∧ tag.extended_header.available = 0
      ∧ read_tag_frames fuel (file.advance 10) (get_tag_size tag.header) []
          = some (file1, available, tag.frames)
      ∧ (frames_total tag.frames ≤ get_tag_size tag.header →
          frames_total tag.frames + available = get_tag_size tag.header)
      ∧ (available = 0
          ∨ ∃ g : FILE,
              ((read_frame g).1.header.id.get 0 = 0 ∨ (read_frame g).1.header.id.get 1 = 0
                ∨ (read_frame g).1.header.id.get 2 = 0 ∨ (read_frame g).1.header.id.get 3 = 0)
              ∧ file1 = (read_frame g).2.seek_back10) := by
  have hc : ¬ ((read_tag_header file).id.b0 ≠ 73 ∨ (read_tag_header file).id.b1 ≠ 68
      ∨ (read_tag_header file).id.b2 ≠ 51) := fun hc => (header_id_check file).mp hc hid
  have he : read_tag_extended_header (read_tag_header file) (file.advance 10)
      = (zero_extended_header, file.advance 10) := by
    simp [read_tag_extended_header, hext]
  have hS := get_tag_size_lt (read_tag_header file)
  have hsub : sub32 (get_tag_size (read_tag_header file)) 0
      = get_tag_size (read_tag_header file) := by
    simp only [sub32]
    omega
  obtain ⟨⟨file3, a, frames⟩, hr⟩ :=
    read_tag_frames_terminates
      ((read_tag_extended_header (read_tag_header file) (file.advance 10)).2.bytes.length
        - (read_tag_extended_header (read_tag_header file) (file.advance 10)).2.pos + 1)
      (read_tag_extended_header (read_tag_header file) (file.advance 10)).2
      (sub32 (get_tag_size (read_tag_header file))
        (if (read_tag_extended_header (read_tag_header file) (file.advance 10)).1.available = 1
          then (read_tag_extended_header (read_tag_header file)
            (file.advance 10)).1.pre_header.header_size
          else 0))
      [] (by omega)
  have hread : read_tag file
      = some ({ header := read_tag_header file,
                extended_header :=
                  (read_tag_extended_header (read_tag_header file) (file.advance 10)).1,
                frames := frames, success := 1 }, file3) := by
    simp only [read_tag, hc, if_false, hr]
  rw [he] at hr hread
  rw [show (zero_extended_header, file.advance 10).2 = file.advance 10 from rfl,
    show (zero_extended_header, file.advance 10).1 = zero_extended_header from rfl,
    if_neg (show ¬ zero_extended_header.available = 1 by decide), hsub] at hr
  obtain ⟨r1, r2, _, r4⟩ := read_tag_frames_accounting _ _ _ _ _ _ _ hr (by omega)
  refine ⟨_, file3, a, _, hread, rfl, rfl, hr, ?_, r4⟩
  intro hle
  simp only [frames_total, List.map_nil, List.sum_nil, Nat.zero_add] at r2
  simp only [frames_total] at hle ⊢
  omega

/-- The 35-byte stream made of a header declaring size 25, a `TIT2` frame with 13 payload
bytes and two zero bytes. -/
theorem sample_stream_padded_eval :
    (read_tag (fopen_rb sample_stream_padded)).map
      (fun r => (r.1.success, get_tag_size r.1.header, r.1.count_of_frames,
        frames_total r.1.frames))
      = some (1, 25, 1, 23) := by
  decide

/-- C9 (amended) on `sample_stream_padded`: declared size 25, one frame of 23 bytes, two
bytes left. -/
theorem read_tag_size_accounting_witness :
    ∃ tag file1 available fuel,
      read_tag (fopen_rb sample_stream_padded) = some (tag, file1)
      ∧ tag.header = read_tag_header (fopen_rb sample_stream_padded)
      ∧ tag.extended_header.available = 0
      ∧ read_tag_frames fuel ((fopen_rb sample_stream_padded).advance 10)
            (get_tag_size tag.header) []
          = some (file1, available, tag.frames)
      ∧ (frames_total tag.frames ≤ get_tag_size tag.header →
          frames_total tag.frames + available = get_tag_size tag.header)
      ∧ (available = 0
          ∨ ∃ g : FILE,
              ((read_frame g).1.header.id.get 0 = 0 ∨ (read_frame g).1.header.id.get 1 = 0
                ∨ (read_frame g).1.header.id.get 2 = 0 ∨ (read_frame g).1.header.id.get 3 = 0)
              ∧ file1 = (read_frame g).2.seek_back10) :=
  read_tag_size_accounting (fopen_rb sample_stream_padded) (by decide) (by decide)


/-! ## Truncated frames, query lookup, size decoding -/

/-- C11 as stated fails: on an 11-byte stream whose frame header declares five payload
bytes while one exists, `read_frame` returns a frame (the missing payload bytes are zero)
and leaves the stream at its end; it has no failure result. -/
theorem read_frame_returns_on_truncated_stream :
    read_frame (fopen_rb [84, 73, 84, 50, 0, 0, 0, 5, 0, 0, 65])
      = ({ header := { id := id_TIT2, size := 5, flags := 0 }, data := [65, 0, 0, 0, 0] },
         { bytes := [84, 73, 84, 50, 0, 0, 0, 5, 0, 0, 65], pos := 11 }) := by
  decide

/-- C11 (amended): on a stream that holds fewer bytes than the frame at the read position
declares, `read_frame` still returns a frame: its header fields are decoded from the bytes
that exist (missing header bytes count as zero), its data buffer has exactly `size` bytes,
namely the payload bytes that exist followed by zeros, and the stream is left at its
end. -/
theorem read_frame_truncated (file : FILE) (hpos : file.pos ≤ file.bytes.length)
    (h : file.bytes.length - file.pos < 10 + (read_frame file).1.header.size) :
    (read_frame file).1.header.id
        = ⟨byteAt (file.peek 10) 0, byteAt (file.peek 10) 1, byteAt (file.peek 10) 2,
            byteAt (file.peek 10) 3⟩
      ∧ (read_frame file).1.header.size
          = be32 (byteAt (file.peek 10) 4) (byteAt (file.peek 10) 5) (byteAt (file.peek 10) 6)
              (byteAt (file.peek 10) 7)
      ∧ (read_frame file).1.data.length = (read_frame file).1.header.size
      ∧ (read_frame file).1.data
          = file.bytes.drop (file.pos + 10)
            ++ List.replicate
                ((read_frame file).1.header.size - (file.bytes.length - (file.pos + 10))) 0
      ∧ (read_frame file).2.pos = file.bytes.length := by
  refine ⟨rfl, rfl, ?_, ?_, ?_⟩
  · simp only [read_frame, FILE.peek, FILE.advance, zeroPad, List.length_append,
      List.length_take, List.length_drop, List.length_replicate]
    omega
  · simp only [read_frame, FILE.peek, FILE.advance, zeroPad] at h ⊢
    by_cases h10 : 10 ≤ file.bytes.length - file.pos
    · have hmin : min 10 (file.bytes.length - file.pos) = 10 := Nat.min_eq_left h10
      have hlen : (List.drop (file.pos + 10) file.bytes).length
          ≤ be32 (byteAt (List.take 10 (List.drop file.pos file.bytes)) 4)
              (byteAt (List.take 10 (List.drop file.pos file.bytes)) 5)
              (byteAt (List.take 10 (List.drop file.pos file.bytes)) 6)
              (byteAt (List.take 10 (List.drop file.pos file.bytes)) 7) := by
        rw [List.length_drop]
        omega
      rw [hmin, List.take_take, Nat.min_self, List.take_of_length_le hlen]
      simp only [List.length_drop]
    · have hmin : min 10 (file.bytes.length - file.pos) = file.bytes.length - file.pos :=
        Nat.min_eq_right (by omega)
      have e : file.pos + (file.bytes.length - file.pos) = file.bytes.length := by omega
      rw [hmin, e, List.drop_of_length_le (Nat.le_refl _),
        List.drop_of_length_le (show file.bytes.length ≤ file.pos + 10 by omega)]
      simp only [List.take_nil, List.length_nil, List.nil_append]
      congr 1
      omega
  · simp only [read_frame, FILE.peek, FILE.advance, zeroPad] at h ⊢
    by_cases h10 : 10 ≤ file.bytes.length - file.pos
    · have hmin : min 10 (file.bytes.length - file.pos) = 10 := Nat.min_eq_left h10
      rw [hmin]
      have hmin2 : min (be32 (byteAt (List.take 10 (List.drop file.pos file.bytes)) 4)
              (byteAt (List.take 10 (List.drop file.pos file.bytes)) 5)
              (byteAt (List.take 10 (List.drop file.pos file.bytes)) 6)
              (byteAt (List.take 10 (List.drop file.pos file.bytes)) 7))
            (file.bytes.length - (file.pos + 10))
          = file.bytes.length - (file.pos + 10) := Nat.min_eq_right (by omega)
      rw [hmin2]
      omega
    · have hmin : min 10 (file.bytes.length - file.pos) = file.bytes.length - file.pos :=
        Nat.min_eq_right (by omega)
      have e : file.pos + (file.bytes.length - file.pos) = file.bytes.length := by omega
      rw [hmin, e, Nat.sub_self, Nat.min_zero]
      rfl

/-- C11 (amended) on the 11-byte stream of the counterexample. -/
theorem read_frame_truncated_witness :
    (read_frame (fopen_rb [84, 73, 84, 50, 0, 0, 0, 5, 0, 0, 65])).1.data.length = 5
      ∧ (read_frame (fopen_rb [84, 73, 84, 50, 0, 0, 0, 5, 0, 0, 65])).1.data
          = [65, 0, 0, 0, 0]
      ∧ (read_frame (fopen_rb [84, 73, 84, 50, 0, 0, 0, 5, 0, 0, 65])).2.pos = 11 := by
  have h := read_frame_truncated (fopen_rb [84, 73, 84, 50, 0, 0, 0, 5, 0, 0, 65])
    (by decide) (by decide)
  exact ⟨h.2.2.1.trans (by decide), h.2.2.2.1.trans (by decide), h.2.2.2.2⟩


theorem main_get_eq (tag : IDv3_2_3_tag) (get_frame_id : Bytes4) :
    main_get tag get_frame_id
      = match find_frame tag.frames get_frame_id with
        | some i => tag.frames[i]?
        | none => none := rfl

/-- C12: the lookup of the `--get` path yields the last frame in file order whose id equals
the requested id, and yields no frame (`No frame found`) if and only if no frame of the tag
has that id. -/
theorem main_get_last (tag : IDv3_2_3_tag) (get_frame_id : Bytes4) :
    (main_get tag get_frame_id = none ↔ ∀ f ∈ tag.frames, f.header.id ≠ get_frame_id)
      ∧ ((∃ f ∈ tag.frames, f.header.id = get_frame_id) →
          ∃ (i : Nat) (f : IDv3_2_3_frame), main_get tag get_frame_id = some f
            ∧ tag.frames[i]? = some f ∧ f.header.id = get_frame_id
            ∧ ∀ (j : Nat) (g : IDv3_2_3_frame), i < j → tag.frames[j]? = some g →
                g.header.id ≠ get_frame_id) := by
  have hsome : (∃ f ∈ tag.frames, f.header.id = get_frame_id) →
      ∃ (i : Nat) (f : IDv3_2_3_frame), main_get tag get_frame_id = some f
        ∧ tag.frames[i]? = some f ∧ f.header.id = get_frame_id
        ∧ ∀ (j : Nat) (g : IDv3_2_3_frame), i < j → tag.frames[j]? = some g →
            g.header.id ≠ get_frame_id := by
    intro h
    obtain ⟨i, f, hfind, hf, hid, hlast⟩ := find_frame_some tag.frames get_frame_id h
    refine ⟨i, f, ?_, hf, hid, hlast⟩
    rw [main_get_eq, hfind]
    exact hf
  refine ⟨⟨?_, ?_⟩, hsome⟩
  · intro hnone f hf hid
    obtain ⟨i, g, hg, _⟩ := hsome ⟨f, hf, hid⟩
    rw [hnone] at hg
    cases hg
  · intro h
    rw [main_get_eq, find_frame_none _ _ h]

/-- C12 on `sample_tag_dup`: `TIT2` yields the third frame, an absent id yields none. -/
theorem main_get_last_witness :
    main_get sample_tag_dup id_TIT2
        = some { header := { id := id_TIT2, size := 2, flags := 0 }, data := [0, 100] }
      ∧ main_get sample_tag_dup ⟨84, 65, 76, 66⟩ = none
      ∧ ∃ (i : Nat) (f : IDv3_2_3_frame), main_get sample_tag_dup id_TIT2 = some f
          ∧ sample_tag_dup.frames[i]? = some f ∧ f.header.id = id_TIT2
          ∧ ∀ (j : Nat) (g : IDv3_2_3_frame), i < j → sample_tag_dup.frames[j]? = some g →
              g.header.id ≠ id_TIT2 :=
  ⟨by decide, by decide, (main_get_last sample_tag_dup id_TIT2).2 (by decide)⟩

theorem get_tag_size_eq_or (h : IDv3_2_3_tag_header) :
    get_tag_size h
      = 0 ||| h.raw_tag_size.b0.val <<< 21 ||| h.raw_tag_size.b1.val <<< 14
          ||| h.raw_tag_size.b2.val <<< 7 ||| h.raw_tag_size.b3.val <<< 0 := by
  simp only [get_tag_size, List.range, List.range.loop, List.foldl, Bytes4.get]

/-- C16 as stated fails: for the size bytes `80 00 00 00` the formula with the mask gives
0, while `get_tag_size` returns `2^28`; for `FF FF FF FF` the formula gives `2^28 - 1` and
`get_tag_size` returns `2^29 - 1`. -/
theorem get_tag_size_keeps_top_bit :
    get_tag_size (sample_header ⟨128, 0, 0, 0⟩) = 2 ^ 28
      ∧ decode_synchsafe_spec ⟨128, 0, 0, 0⟩ = 0
      ∧ get_tag_size (sample_header ⟨255, 255, 255, 255⟩) = 2 ^ 29 - 1
      ∧ decode_synchsafe_spec ⟨255, 255, 255, 255⟩ = 2 ^ 28 - 1 := by
  decide

/-- C16 (amended): for every four size bytes, `get_tag_size` returns the bitwise OR of
`b_i << (7 * (3 - i))` with no mask applied; when the top bit of every byte is clear this is
the sum of `(b_i & 0x7F) << (7 * (3 - i))`. -/
theorem get_tag_size_unmasked (h : IDv3_2_3_tag_header) :
    get_tag_size h
        = h.raw_tag_size.b0.val <<< 21 ||| h.raw_tag_size.b1.val <<< 14
            ||| h.raw_tag_size.b2.val <<< 7 ||| h.raw_tag_size.b3.val
      ∧ ((∀ i, i < 4 → (h.raw_tag_size.get i).val < 128) →
          get_tag_size h = decode_synchsafe_spec h.raw_tag_size) := by
  constructor
  · rw [get_tag_size_eq_or]
    simp
  · intro hb
    have h0 := hb 0 (by decide)
    have h1 := hb 1 (by decide)
    have h2 := hb 2 (by decide)
    have h3 := hb 3 (by decide)
    simp only [Bytes4.get] at h0 h1 h2 h3
    have hm : ∀ y : Nat, y &&& 127 = y % 128 := fun y => Nat.and_pow_two_sub_one_eq_mod y 7
    rw [get_tag_size_eq_or, or_shift_eq_add _ _ _ _ h1 h2 h3]
    simp only [decode_synchsafe_spec, List.range, List.range.loop, List.map, List.sum_cons,
      List.sum_nil, Bytes4.get, hm, Nat.shiftLeft_eq]
    omega

/-- C16 (amended) on the size bytes `00 00 01 17`. -/
theorem get_tag_size_unmasked_witness :
    get_tag_size (sample_header ⟨0, 0, 1, 23⟩) = 151
      ∧ get_tag_size (sample_header ⟨0, 0, 1, 23⟩) = decode_synchsafe_spec ⟨0, 0, 1, 23⟩ :=
  ⟨by decide, (get_tag_size_unmasked (sample_header ⟨0, 0, 1, 23⟩)).2 (by decide)⟩


/-! ## The frame loop: padding test and termination -/

theorem read_tag_frames_fuel_mono (fuel : Nat) :
    ∀ (file : FILE) (available_size : Nat) (frames : List IDv3_2_3_frame)
      (r : FILE × Nat × List IDv3_2_3_frame) (k : Nat),
      read_tag_frames fuel file available_size frames = some r →
      read_tag_frames (fuel + k) file available_size frames = some r := by
  induction fuel with
  | zero => intro file a frames r k h; simp [read_tag_frames] at h
  | succ fuel ih =>
    intro file a frames r k h
    have e : fuel + 1 + k = (fuel + k) + 1 := by omega
    rw [e]
    unfold read_tag_frames at h ⊢
    by_cases ha : a > 0
    · simp only [ha, if_true] at h ⊢
      split
      · rename_i hid
        simpa only [hid, if_true] using h
      · rename_i hid
        simp only [hid, if_false] at h
        exact ih _ _ _ _ _ h
    · simpa only [ha, if_false] using h

theorem read_tag_frames_prefix (fuel : Nat) :
    ∀ (file : FILE) (available_size : Nat) (frames : List IDv3_2_3_frame)
      (r : FILE × Nat × List IDv3_2_3_frame),
      read_tag_frames fuel file available_size frames = some r → frames <+: r.2.2 := by
  induction fuel with
  | zero => intro file a frames r h; simp [read_tag_frames] at h
  | succ fuel ih =>
    intro file a frames r h
    unfold read_tag_frames at h
    by_cases ha : a > 0
    · simp only [ha, if_true] at h
      split at h
      · simp only [Option.some.injEq] at h
        subst h
        exact List.prefix_refl _
      · exact (List.prefix_append frames _).trans (ih _ _ _ _ h)
    · simp only [ha, if_false, Option.some.injEq] at h
      subst h
      exact List.prefix_refl _

/-- C17 as stated fails: in `sample_stream_short_id` the frame header read at the frame
boundary has the id bytes `54 54 32 00`, three of them non-zero, yet `read_tag` treats it as
padding: no frame is stored and the stream is left at offset 10. -/
theorem read_tag_stops_at_partly_zero_id :
    (read_frame { bytes := sample_stream_short_id, pos := 10 }).1.header.id = ⟨84, 84, 50, 0⟩
      ∧ (read_tag (fopen_rb sample_stream_short_id)).map
          (fun r => (r.1.success, get_tag_size r.1.header, r.1.count_of_frames, r.2.pos))
        = some (1, 10, 0, 10) := by
  decide

/-- C17 (amended): in an iteration of the frame loop of `read_tag` (entered with
`available_size > 0`) the frame just read is treated as the start of padding, the stream
being moved back ten bytes and the loop left with the frames stored so far, if and only if
at least one of its four id bytes is zero; a frame whose four id bytes are all non-zero is
appended to the frame sequence, where it stays, and the loop goes on after it. -/
theorem read_tag_frames_padding_test (fuel : Nat) (file : FILE) (available_size : Nat)
    (frames : List IDv3_2_3_frame) (ha : available_size > 0) :
    (((read_frame file).1.header.id.get 0 = 0 ∨ (read_frame file).1.header.id.get 1 = 0
          ∨ (read_frame file).1.header.id.get 2 = 0 ∨ (read_frame file).1.header.id.get 3 = 0) →
        read_tag_frames (fuel + 1) file available_size frames
            = some ((read_frame file).2.seek_back10, available_size, frames)
          ∧ (10 ≤ (read_frame file).2.pos →
              (read_frame file).2.seek_back10.pos = (read_frame file).2.pos - 10))
      ∧ (((read_frame file).1.header.id.get 0 ≠ 0 ∧ (read_frame file).1.header.id.get 1 ≠ 0
          ∧ (read_frame file).1.header.id.get 2 ≠ 0 ∧ (read_frame file).1.header.id.get 3 ≠ 0) →
        read_tag_frames (fuel + 1) file available_size frames
            = read_tag_frames fuel (read_frame file).2
                (sub32 available_size (add32 10 (read_frame file).1.header.size))
                (frames ++ [(read_frame file).1])
          ∧ ∀ r, read_tag_frames (fuel + 1) file available_size frames = some r →
              frames ++ [(read_frame file).1] <+: r.2.2) := by
  constructor
  · intro hz
    constructor
    · rw [read_tag_frames]
      simp only [ha, if_true, hz]
    · intro h10
      simp only [FILE.seek_back10, h10, if_true]
  · intro hnz
    have hc : ¬ ((read_frame file).1.header.id.get 0 = 0 ∨ (read_frame file).1.header.id.get 1 = 0
          ∨ (read_frame file).1.header.id.get 2 = 0
          ∨ (read_frame file).1.header.id.get 3 = 0) := by
      rintro (h | h | h | h)
      · exact hnz.1 h
      · exact hnz.2.1 h
      · exact hnz.2.2.1 h
      · exact hnz.2.2.2 h
    have hstep : read_tag_frames (fuel + 1) file available_size frames
        = read_tag_frames fuel (read_frame file).2
            (sub32 available_size (add32 10 (read_frame file).1.header.size))
            (frames ++ [(read_frame file).1]) := by
      rw [read_tag_frames]
      simp only [ha, if_true, hc, if_false]
    refine ⟨hstep, ?_⟩
    intro r hr
    rw [hstep] at hr
    exact read_tag_frames_prefix _ _ _ _ _ hr

/-- C17 (amended) on `sample_stream_padded`: at offset 10 a `TIT2` frame is stored, at offset
33 the id bytes are zero and the loop stops. -/
theorem read_tag_frames_padding_test_witness :
    read_tag_frames 2 { bytes := sample_stream_padded, pos := 33 } 2 []
        = some ({ bytes := sample_stream_padded, pos := 25 }, 2, [])
      ∧ read_tag_frames 3 { bytes := sample_stream_padded, pos := 10 } 25 []
        = read_tag_frames 2 { bytes := sample_stream_padded, pos := 33 } 2
            [{ header := { id := id_TIT2, size := 13, flags := 0 },
               data := [0, 72, 101, 108, 108, 111, 32, 87, 111, 114, 108, 100, 33] }] := by
  have h1 := (read_tag_frames_padding_test 1 { bytes := sample_stream_padded, pos := 33 } 2 []
    (by decide)).1 (by decide)
  have h2 := (read_tag_frames_padding_test 2 { bytes := sample_stream_padded, pos := 10 } 25 []
    (by decide)).2 (by decide)
  exact ⟨h1.1.trans (by decide), h2.1.trans (by decide)⟩

theorem read_tag_extended_header_bytes (h : IDv3_2_3_tag_header) (f : FILE) :
    (read_tag_extended_header h f).2.bytes = f.bytes := by
  simp only [read_tag_extended_header]
  split_ifs <;> rfl

theorem read_tag_extended_header_pos (h : IDv3_2_3_tag_header) (f : FILE) :
    f.pos ≤ (read_tag_extended_header h f).2.pos := by
  simp only [read_tag_extended_header]
  split_ifs <;> simp only [FILE.advance] <;> omega

/-- C20: `read_tag` returns on every finite input, whatever sizes the header and the frames
declare: its frame loop, started on any stream with any `available_size`, ends within as
many iterations as there are unread bytes, plus one, and allowing more iterations does not
change its result; when the input starts with `I`, `D`, `3` at offset 0 the number of
iterations `read_tag` allows is at most the length of that input. -/
theorem read_tag_terminates (file : FILE) :
    (∃ r, read_tag file = some r)
      ∧ (∀ (available_size : Nat) (frames : List IDv3_2_3_frame),
          ∃ r, read_tag_frames (file.bytes.length - file.pos + 1) file available_size frames
                = some r
            ∧ ∀ fuel, file.bytes.length - file.pos < fuel →
                read_tag_frames fuel file available_size frames = some r)
      ∧ (file.pos = 0 → file.peek 3 = [73, 68, 51] →
          (read_tag_extended_header (read_tag_header file) (file.advance 10)).2.bytes.length
              - (read_tag_extended_header (read_tag_header file) (file.advance 10)).2.pos + 1
            ≤ file.bytes.length) := by
  refine ⟨?_, ?_, ?_⟩
  · by_cases hc : (read_tag_header file).id.b0 ≠ 73 ∨ (read_tag_header file).id.b1 ≠ 68
        ∨ (read_tag_header file).id.b2 ≠ 51
    · simp only [read_tag, hc, if_true]
      exact ⟨_, rfl⟩
    · obtain ⟨⟨file3, a, frames⟩, hr⟩ :=
        read_tag_frames_terminates
          ((read_tag_extended_header (read_tag_header file) (file.advance 10)).2.bytes.length
            - (read_tag_extended_header (read_tag_header file) (file.advance 10)).2.pos + 1)
          (read_tag_extended_header (read_tag_header file) (file.advance 10)).2
          (sub32 (get_tag_size (read_tag_header file))
            (if (read_tag_extended_header (read_tag_header file)
                  (file.advance 10)).1.available = 1
              then (read_tag_extended_header (read_tag_header file)
                (file.advance 10)).1.pre_header.header_size
              else 0))
          [] (by omega)
      simp only [read_tag, hc, if_false, hr]
      exact ⟨_, rfl⟩
  · intro a frames
    obtain ⟨r, hr⟩ := read_tag_frames_terminates (file.bytes.length - file.pos + 1) file a
      frames (by omega)
    refine ⟨r, hr, ?_⟩
    intro fuel hfuel
    have e : fuel = (file.bytes.length - file.pos + 1) + (fuel - (file.bytes.length - file.pos + 1)) := by
      omega
    rw [e]
    exact read_tag_frames_fuel_mono _ _ _ _ _ _ hr
  · intro hpos hid
    have hlen : 3 ≤ file.bytes.length := by
      have := congrArg List.length hid
      simp only [FILE.peek, hpos, List.drop_zero, List.length_take, List.length_cons,
        List.length_nil] at this
      omega
    have hadv : 3 ≤ (file.advance 10).pos := by
      simp only [FILE.advance, hpos]
      by_cases h10 : 10 ≤ file.bytes.length - 0
      · have hmin : min 10 (file.bytes.length - 0) = 10 := Nat.min_eq_left h10
        rw [hmin]
        omega
      · have hmin : min 10 (file.bytes.length - 0) = file.bytes.length - 0 :=
          Nat.min_eq_right (by omega)
        rw [hmin]
        omega
    have hb := read_tag_extended_header_bytes (read_tag_header file) (file.advance 10)
    have hp := read_tag_extended_header_pos (read_tag_header file) (file.advance 10)
    have hab : (file.advance 10).bytes = file.bytes := rfl
    rw [hb, hab]
    omega


/-! ## Display of frame contents -/

/-- C13 fails on the code: for a `TIT2` frame with the payload `01 FF FE 48 00 69 00` (the
text `Hi`), whatever memory follows the payload, `print_frame_data` prints four characters,
one for every byte offset from 3 on: `H`, the unit `0x6900` read across the two letters,
`i`, and a unit read across the end of the payload; the text `Hi` has two. -/
theorem print_frame_data_utf16_stride (after : List Byte) :
    print_frame_data (frame_header_bytes { id := id_TIT2, size := 7, flags := 0 })
        ([1, 255, 254, 72, 0, 105, 0] ++ after) 7
      = [72, 26880, 105, (byteAt after 0).val * 2 ^ 8]
    ∧ print_frame_data (frame_header_bytes { id := id_TIT2, size := 7, flags := 0 })
        ([1, 255, 254, 72, 0, 105, 0] ++ after) 7
      ≠ [72, 105] := by
  have h : print_frame_data (frame_header_bytes { id := id_TIT2, size := 7, flags := 0 })
        ([1, 255, 254, 72, 0, 105, 0] ++ after) 7
      = [72, 26880, 105, (byteAt after 0).val * 2 ^ 8] := by
    have hid : c_string (frame_header_bytes { id := id_TIT2, size := 7, flags := 0 })
        ≠ apic_text := by decide
    have b0 : byteAt ([1, 255, 254, 72, 0, 105, 0] ++ after) 0 = 1 := rfl
    have b1 : byteAt ([1, 255, 254, 72, 0, 105, 0] ++ after) 1 = 255 := rfl
    have b2 : byteAt ([1, 255, 254, 72, 0, 105, 0] ++ after) 2 = 254 := rfl
    have b3 : byteAt ([1, 255, 254, 72, 0, 105, 0] ++ after) 3 = 72 := rfl
    have b4 : byteAt ([1, 255, 254, 72, 0, 105, 0] ++ after) 4 = 0 := rfl
    have b5 : byteAt ([1, 255, 254, 72, 0, 105, 0] ++ after) 5 = 105 := rfl
    have b6 : byteAt ([1, 255, 254, 72, 0, 105, 0] ++ after) 6 = 0 := rfl
    have b7 : byteAt ([1, 255, 254, 72, 0, 105, 0] ++ after) 7 = byteAt after 0 := rfl
    have hr : List.range' 3 (7 - 3) = [3, 4, 5, 6] := rfl
    simp only [print_frame_data, hid, if_false, b0, b1, b2]
    rw [if_pos (by decide), hr]
    simp only [List.map, b3, b4, b5, b6, b7]
    simp [le16]
    decide
  rw [h]
  exact ⟨rfl, by simp⟩

theorem byteAt_cons_succ (a : Byte) (l : List Byte) (k : Nat) :
    byteAt (a :: l) (k + 1) = byteAt l k := by
  simp [byteAt]

theorem byteAt_append_zero (t after : List Byte) :
    ∀ k, k ≤ t.length → byteAt (t ++ 0 :: after) k = byteAt t k := by
  induction t with
  | nil =>
    intro k hk
    have : k = 0 := by simpa using hk
    subst this
    simp [byteAt]
  | cons a t ih =>
    intro k hk
    cases k with
    | zero => simp [byteAt]
    | succ k =>
      rw [List.cons_append, byteAt_cons_succ, byteAt_cons_succ]
      exact ih k (by simpa using hk)

theorem drop_eq_byteAt_cons (t : List Byte) (k : Nat) (hk : k < t.length) :
    t.drop k = byteAt t k :: t.drop (k + 1) := by
  rw [List.drop_eq_getElem_cons hk]
  simp [byteAt, List.getD_eq_getElem?_getD, List.getElem?_eq_getElem hk]

/-- The text loop on a payload made of a zero marker byte and a text without the byte pair
`FF FE`, followed by a zero byte: from index `j` on, it prints the text bytes one by one. -/
theorem print_text_loop_latin1 (t after : List Byte)
    (hpair : ∀ i, ¬ ((byteAt t i).val = 0xFF ∧ (byteAt t (i + 1)).val = 0xFE)) (fuel : Nat) :
    ∀ j, 1 ≤ j → t.length + 1 - j ≤ fuel →
      print_text_loop (0 :: t ++ 0 :: after) (t.length + 1) fuel j
        = (t.drop (j - 1)).map (fun b => b.val) := by
  induction fuel with
  | zero =>
    intro j hj hf
    rw [List.drop_of_length_le (by omega)]
    rfl
  | succ fuel ih =>
    intro j hj hf
    obtain ⟨k, rfl⟩ : ∃ k, j = k + 1 := ⟨j - 1, by omega⟩
    rw [print_text_loop]
    by_cases hlt : k + 1 < t.length + 1
    · have hk : k < t.length := by omega
      have e1 : byteAt (0 :: t ++ 0 :: after) (k + 1) = byteAt t k := by
        rw [List.cons_append, byteAt_cons_succ, byteAt_append_zero t after k (by omega)]
      have e2 : byteAt (0 :: t ++ 0 :: after) (k + 1 + 1) = byteAt t (k + 1) := by
        rw [List.cons_append, byteAt_cons_succ, byteAt_append_zero t after (k + 1) (by omega)]
      simp only [hlt, if_true, e1, e2, hpair k, if_false]
      rw [ih (k + 1 + 1) (by omega) (by omega)]
      simp only [Nat.add_sub_cancel]
      rw [drop_eq_byteAt_cons t k hk]
      rfl
    · simp only [hlt, if_false]
      rw [List.drop_of_length_le (by omega)]
      rfl

theorem c_string_frame_header_bytes (h : IDv3_2_3_frame_header)
    (hc : c_string (frame_header_bytes h) = apic_text) : h.id = ⟨65, 80, 73, 67⟩ := by
  obtain ⟨⟨i0, i1, i2, i3⟩, size, flags⟩ := h
  simp only [frame_header_bytes, Bytes4.toList, be32_bytes, be16_bytes, List.cons_append,
    List.nil_append, c_string, apic_text] at hc
  by_cases h0 : i0 = 0
  · simp [h0] at hc
  by_cases h1 : i1 = 0
  · simp [h0, h1] at hc
  by_cases h2 : i2 = 0
  · simp [h0, h1, h2] at hc
  by_cases h3 : i3 = 0
  · simp [h0, h1, h2, h3] at hc
  simp only [h0, h1, h2, h3, if_false, List.cons.injEq] at hc
  obtain ⟨r0, r1, r2, r3, _⟩ := hc
  subst r0 r1 r2 r3
  rfl

/-- C14: for a frame whose id is not `APIC` and whose payload is a zero marker byte followed
by a text `t` without an adjacent byte pair `FF FE`, the byte after the payload being zero,
`print_frame_data` prints exactly the bytes of `t`, one character each, without the
marker. -/
theorem print_frame_data_latin1 (frame : IDv3_2_3_frame) (t after : List Byte)
    (hid : frame.header.id ≠ ⟨65, 80, 73, 67⟩) (hdata : frame.data = 0 :: t)
    (hsize : frame.header.size = t.length + 1)
    (hpair : ∀ i, ¬ ((byteAt t i).val = 0xFF ∧ (byteAt t (i + 1)).val = 0xFE)) :
    print_frame_data_by_frame frame (0 :: after) = t.map (fun b => b.val) := by
  have hc : c_string (frame_header_bytes frame.header) ≠ apic_text :=
    fun hc => hid (c_string_frame_header_bytes _ hc)
  have h0 : byteAt (0 :: t ++ 0 :: after) 0 = 0 := rfl
  have hend : byteAt (0 :: t ++ 0 :: after) (t.length + 1) = 0 := by
    rw [List.cons_append, byteAt_cons_succ, byteAt_append_zero t after t.length (Nat.le_refl _)]
    simp [byteAt]
  simp only [print_frame_data_by_frame, print_frame_data, hc, if_false, hdata, hsize, h0, hend,
    if_true]
  have h01 : ¬ ((0 : Byte).val = 1 ∧ (byteAt (0 :: t ++ 0 :: after) 1).val = 255
      ∧ (byteAt (0 :: t ++ 0 :: after) 2).val = 254) := by
    intro h
    exact absurd h.1 (by decide)
  rw [if_neg h01]
  rw [print_text_loop_latin1 t after hpair (t.length + 1) 1 (Nat.le_refl _) (by omega)]
  rfl

/-- C14 on the `TIT2` frame with payload `00 "Hello World"`: the text printed is
`Hello World`. -/
theorem print_frame_data_latin1_witness :
    print_frame_data_by_frame
        { header := { id := id_TIT2, size := 12, flags := 0 },
          data := [0, 72, 101, 108, 108, 111, 32, 87, 111, 114, 108, 100] } [0]
      = [72, 101, 108, 108, 111, 32, 87, 111, 114, 108, 100] :=
  print_frame_data_latin1
    { header := { id := id_TIT2, size := 12, flags := 0 },
      data := [0, 72, 101, 108, 108, 111, 32, 87, 111, 114, 108, 100] }
    [72, 101, 108, 108, 111, 32, 87, 111, 114, 108, 100] [] (by decide) rfl rfl
    (by
      intro i
      have h : ∀ k, (byteAt [72, 101, 108, 108, 111, 32, 87, 111, 114, 108, 100] k).val ≠ 255 := by
        intro k
        match k with
        | 0 | 1 | 2 | 3 | 4 | 5 | 6 | 7 | 8 | 9 | 10 => decide
        | k + 11 => simp [byteAt]
      exact fun hc => h i hc.1)


/-! ## Writing a tag -/

theorem write_frame_length (f : IDv3_2_3_frame) (h : f.header.size ≤ f.data.length) :
    (write_frame f).length = 10 + f.header.size := by
  simp only [write_frame, frame_header_bytes, Bytes4.toList, be32_bytes, be16_bytes,
    List.length_append, List.length_cons, List.length_nil, List.length_take]
  omega

theorem flatten_write_frame_length (frames : List IDv3_2_3_frame)
    (h : ∀ f ∈ frames, f.header.size ≤ f.data.length) :
    ((frames.map write_frame).flatten).length = frames_total frames := by
  induction frames with
  | nil => rfl
  | cons f fs ih =>
    have hf := write_frame_length f (h f (List.mem_cons_self _ _))
    have hfs := ih (fun g hg => h g (List.mem_cons_of_mem _ hg))
    simp only [List.map_cons, List.flatten_cons, List.length_append, hf, hfs, frames_total,
      List.sum_cons]

/-- Without extended header `write_tag` writes the ten header bytes and then the frames in
sequence order, nothing else; the length is `10 + Σ (10 + size)`. -/
theorem write_tag_without_extended_header (tag : IDv3_2_3_tag)
    (h : tag.extended_header.available ≠ 1) :
    write_tag tag = tag_header_bytes tag.header ++ (tag.frames.map write_frame).flatten
      ∧ ((∀ f ∈ tag.frames, f.header.size ≤ f.data.length) →
          (write_tag tag).length = 10 + frames_total tag.frames) := by
  have e : write_tag tag = tag_header_bytes tag.header ++ (tag.frames.map write_frame).flatten := by
    simp only [write_tag, h, if_false, List.append_nil]
  refine ⟨e, ?_⟩
  intro hf
  rw [e, List.length_append, flatten_write_frame_length _ hf]
  rfl

/-- With extended header `write_tag` writes the ten header bytes, ten bytes of pre-header
and four CRC bytes when the CRC flag of the pre-header is set, then the frames; this holds
for every content of the pre-header, so the length is never the `10 + 6 + Σ (10 + size)` or
`10 + 6 + 4 + Σ (10 + size)` of a six-byte pre-header. -/
theorem write_tag_with_extended_header (tag : IDv3_2_3_tag)
    (h : tag.extended_header.available = 1)
    (hf : ∀ f ∈ tag.frames, f.header.size ≤ f.data.length) :
    (write_tag tag).length
      = 10 + 10 + (if tag.extended_header.pre_header.flags >>> 15 = 1 then 4 else 0)
          + frames_total tag.frames := by
  simp only [write_tag, h, if_true, List.length_append, flatten_write_frame_length _ hf]
  have h10 : (pre_header_bytes10 tag.extended_header.pre_header).length = 10 := rfl
  have hh : (tag_header_bytes tag.header).length = 10 := rfl
  rw [h10, hh]
  split_ifs
  · rfl
  · rfl

/-- C15 fails on the code: for the tag read from `sample_stream_extended` (extended header
present, CRC flag clear, no frames) `write_tag` writes 20 bytes: the ten header bytes, the
six pre-header bytes that `read_tag` had read and four further bytes of the pre-header
structure; the layout of the claim has 16 bytes. -/
theorem write_tag_extended_header_ten_bytes :
    (read_tag (fopen_rb sample_stream_extended)).map
        (fun r => (r.1.extended_header.available, r.1.extended_header.pre_header.flags >>> 15,
          r.1.count_of_frames, write_tag r.1))
      = some (1, 0, 0,
          [73, 68, 51, 3, 0, 64, 0, 0, 0, 6, 0, 0, 0, 6, 0, 0, 0, 0, 0, 0])
    ∧ (read_tag (fopen_rb sample_stream_extended)).map (fun r => (write_tag r.1).length)
      = some 20
    ∧ (read_tag (fopen_rb sample_stream_extended)).map
        (fun r => 10 + extended_header_length r.1.extended_header + frames_total r.1.frames)
      = some 16 := by
  decide


/-! ## Reading back what was written -/

theorem be32_be32_bytes (n : Nat) (h : n < 2 ^ 32) :
    be32 (toByte (n / 2 ^ 24)) (toByte (n / 2 ^ 16)) (toByte (n / 2 ^ 8)) (toByte n) = n := by
  simp only [be32, toByte]
  omega

theorem be16_be16_bytes (n : Nat) (h : n < 2 ^ 16) :
    be16 (toByte (n / 2 ^ 8)) (toByte n) = n := by
  simp only [be16, toByte]
  omega

theorem frames_total_cons (f : IDv3_2_3_frame) (fs : List IDv3_2_3_frame) :
    frames_total (f :: fs) = (10 + f.header.size) + frames_total fs := by
  simp [frames_total]

/-- Reading a frame at the place where `write_frame` has put it gives the frame back. -/
theorem read_frame_written (pre post : List Byte) (f : IDv3_2_3_frame)
    (hwf : frame_well_formed f) (h32 : f.header.size < 2 ^ 32) :
    read_frame { bytes := pre ++ write_frame f ++ post, pos := pre.length }
      = (f, { bytes := pre ++ write_frame f ++ post,
              pos := pre.length + (10 + f.header.size) }) := by
  obtain ⟨_, _, _, _, hlen, hflags⟩ := hwf
  obtain ⟨⟨⟨i0, i1, i2, i3⟩, size, flags⟩, data⟩ := f
  simp only at hlen hflags h32
  have hw : write_frame (⟨⟨⟨i0, i1, i2, i3⟩, size, flags⟩, data⟩ : IDv3_2_3_frame)
      = i0 :: i1 :: i2 :: i3 :: toByte (size / 2 ^ 24) :: toByte (size / 2 ^ 16)
          :: toByte (size / 2 ^ 8) :: toByte size :: toByte (flags / 2 ^ 8) :: toByte flags
          :: data := by
    simp only [write_frame, frame_header_bytes, Bytes4.toList, be32_bytes, be16_bytes, ← hlen,
      List.take_length]
    rfl
  rw [hw]
  have h := read_frame_at pre post data i0 i1 i2 i3 (toByte (size / 2 ^ 24))
    (toByte (size / 2 ^ 16)) (toByte (size / 2 ^ 8)) (toByte size) (toByte (flags / 2 ^ 8))
    (toByte flags) (by rw [be32_be32_bytes size h32, hlen])
  rw [h, be16_be16_bytes flags hflags, hlen, Nat.add_assoc]

/-- The frame loop run over a sequence of written frames that fit `available_size` stores
exactly these frames and arrives behind them with `available_size` reduced by their
bytes. -/
theorem read_tag_frames_written (frames : List IDv3_2_3_frame) :
    ∀ (pre post : List Byte) (available_size : Nat) (acc : List IDv3_2_3_frame) (fuel : Nat),
      (∀ f ∈ frames, frame_well_formed f) → frames_total frames ≤ available_size →
      available_size < 2 ^ 32 →
      read_tag_frames (fuel + frames.length)
          { bytes := pre ++ (frames.map write_frame).flatten ++ post, pos := pre.length }
          available_size acc
        = read_tag_frames fuel
            { bytes := pre ++ (frames.map write_frame).flatten ++ post,
              pos := pre.length + frames_total frames }
            (available_size - frames_total frames) (acc ++ frames) := by
  induction frames with
  | nil =>
    intro pre post a acc fuel _ _ _
    simp [frames_total]
  | cons f fs ih =>
    intro pre post a acc fuel hwf hle h32
    have hf := hwf f (List.mem_cons_self _ _)
    have hfs : ∀ g ∈ fs, frame_well_formed g := fun g hg => hwf g (List.mem_cons_of_mem _ hg)
    rw [frames_total_cons] at hle
    have hsz : f.header.size < 2 ^ 32 := by omega
    have hbytes : pre ++ ((f :: fs).map write_frame).flatten ++ post
        = pre ++ write_frame f ++ ((fs.map write_frame).flatten ++ post) := by
      simp only [List.map_cons, List.flatten_cons, List.append_assoc]
    have hbytes2 : pre ++ write_frame f ++ ((fs.map write_frame).flatten ++ post)
        = (pre ++ write_frame f) ++ (fs.map write_frame).flatten ++ post := by
      simp only [List.append_assoc]
    have hrf := read_frame_written pre ((fs.map write_frame).flatten ++ post) f hf hsz
    have hfuel : fuel + (f :: fs).length = (fuel + fs.length) + 1 := by
      simp only [List.length_cons]
      omega
    have hid : ¬ (f.header.id.get 0 = 0 ∨ f.header.id.get 1 = 0 ∨ f.header.id.get 2 = 0
        ∨ f.header.id.get 3 = 0) := by
      rintro (h | h | h | h)
      · exact hf.1 h
      · exact hf.2.1 h
      · exact hf.2.2.1 h
      · exact hf.2.2.2.1 h
    have ha : a > 0 := by omega
    have hsub : sub32 a (add32 10 f.header.size) = a - (10 + f.header.size) := by
      simp only [sub32, add32]
      omega
    have hplen : (pre ++ write_frame f).length = pre.length + (10 + f.header.size) := by
      rw [List.length_append, write_frame_length f (by rw [hf.2.2.2.2.1])]
    rw [hfuel, hbytes, read_tag_frames]
    simp only [ha, if_true, hrf, hid, if_false, hsub]
    rw [hbytes2, ← hplen]
    rw [ih (pre ++ write_frame f) post (a - (10 + f.header.size)) (acc ++ [f]) fuel hfs
      (by omega) (by omega)]
    simp only [hplen, frames_total_cons, List.append_assoc, List.singleton_append,
      Nat.add_assoc, Nat.sub_sub]


theorem frames_length_le_total (frames : List IDv3_2_3_frame) :
    frames.length ≤ frames_total frames := by
  induction frames with
  | nil => simp [frames_total]
  | cons f fs ih =>
    rw [frames_total_cons, List.length_cons]
    omega

theorem tag_header_bytes_length (h : IDv3_2_3_tag_header) : (tag_header_bytes h).length = 10 :=
  rfl

theorem read_tag_header_written (h : IDv3_2_3_tag_header) (rest : List Byte) :
    read_tag_header (fopen_rb (tag_header_bytes h ++ rest)) = h := by
  obtain ⟨⟨a, b, c⟩, v1, v2, fl, ⟨r0, r1, r2, r3⟩⟩ := h
  rfl

theorem advance_written (h : IDv3_2_3_tag_header) (rest : List Byte) :
    (fopen_rb (tag_header_bytes h ++ rest)).advance 10
      = { bytes := tag_header_bytes h ++ rest, pos := 10 } := by
  have hmin : min 10 ((tag_header_bytes h ++ rest).length - 0) = 10 := by
    apply Nat.min_eq_left
    rw [List.length_append, tag_header_bytes_length]
    omega
  simp only [FILE.advance, fopen_rb, hmin]

/-- The frame loop on a well-formed tag body: written frames that fit the declared size,
followed either by nothing of the tag (the frames fill the size) or by at least ten zero
bytes; the loop stores the frames and leaves the stream right behind the last frame. -/
theorem read_tag_frames_well_formed (pre post : List Byte) (frames : List IDv3_2_3_frame)
    (available_size fuel : Nat) (hwf : ∀ f ∈ frames, frame_well_formed f)
    (hle : frames_total frames ≤ available_size) (h32 : available_size < 2 ^ 32)
    (hcase : frames_total frames = available_size ∨ ∃ rest, post = List.replicate 10 0 ++ rest) :
    ∃ a, read_tag_frames (fuel + 1 + frames.length)
          { bytes := pre ++ (frames.map write_frame).flatten ++ post, pos := pre.length }
          available_size []
        = some ({ bytes := pre ++ (frames.map write_frame).flatten ++ post,
                  pos := pre.length + frames_total frames }, a, frames) := by
  refine ⟨available_size - frames_total frames, ?_⟩
  rw [read_tag_frames_written frames pre post available_size [] (fuel + 1) hwf hle h32,
    List.nil_append, read_tag_frames]
  by_cases ha : available_size - frames_total frames > 0
  · rcases hcase with heq | ⟨rest, hrest⟩
    · omega
    · subst hrest
      have hlen : (pre ++ (frames.map write_frame).flatten).length
          = pre.length + frames_total frames := by
        rw [List.length_append, flatten_write_frame_length frames
          (fun f hf => by rw [(hwf f hf).2.2.2.2.1])]
      have hb : pre ++ (frames.map write_frame).flatten ++ (List.replicate 10 0 ++ rest)
          = (pre ++ (frames.map write_frame).flatten)
              ++ ((0 : Byte) :: 0 :: 0 :: 0 :: 0 :: 0 :: 0 :: 0 :: 0 :: 0 :: []) ++ rest := by
        simp only [List.append_assoc]
        rfl
      have hrf := read_frame_at (pre ++ (frames.map write_frame).flatten) rest [] 0 0 0 0 0 0 0 0
        0 0 (by decide)
      rw [hlen, ← hb] at hrf
      simp only [ha, if_true, hrf, Bytes4.get, true_or, FILE.seek_back10, List.length_nil]
      have hp : 10 ≤ pre.length + frames_total frames + 10 + 0 := by omega
      simp only [hp, if_true]
      simp
  · simp only [ha, if_false]

/-- Reading a well-formed file: a tag header with the id `ID3` and the extended-header flag
clear, written frames that fit the declared size, then either the end of the tag or at least
ten zero bytes.  `read_tag` returns the header, the frames, and the stream positioned right
behind the last frame. -/
theorem read_tag_well_formed (h : IDv3_2_3_tag_header) (frames : List IDv3_2_3_frame)
    (post : List Byte) (hid : h.id = ⟨73, 68, 51⟩) (hflag : get_tag_header_flag h 1 = 0)
    (hwf : ∀ f ∈ frames, frame_well_formed f) (hle : frames_total frames ≤ get_tag_size h)
    (hcase : frames_total frames = get_tag_size h ∨ ∃ rest, post = List.replicate 10 0 ++ rest) :
    read_tag (fopen_rb (tag_header_bytes h ++ (frames.map write_frame).flatten ++ post))
      = some ({ header := h, extended_header := zero_extended_header, frames := frames,
                success := 1 },
              { bytes := tag_header_bytes h ++ (frames.map write_frame).flatten ++ post,
                pos := 10 + frames_total frames }) := by
  have hS := get_tag_size_lt h
  have hassoc : tag_header_bytes h ++ (frames.map write_frame).flatten ++ post
      = tag_header_bytes h ++ ((frames.map write_frame).flatten ++ post) :=
    List.append_assoc _ _ _
  have hh : read_tag_header
      (fopen_rb (tag_header_bytes h ++ (frames.map write_frame).flatten ++ post)) = h := by
    rw [hassoc]
    exact read_tag_header_written h _
  have hadv : (fopen_rb (tag_header_bytes h ++ (frames.map write_frame).flatten ++ post)).advance 10
      = { bytes := tag_header_bytes h ++ (frames.map write_frame).flatten ++ post, pos := 10 } := by
    rw [hassoc]
    exact advance_written h _
  have hc : ¬ (h.id.b0 ≠ 73 ∨ h.id.b1 ≠ 68 ∨ h.id.b2 ≠ 51) := by
    rw [hid]
    decide
  have he : read_tag_extended_header h
        { bytes := tag_header_bytes h ++ (frames.map write_frame).flatten ++ post, pos := 10 }
      = (zero_extended_header,
          { bytes := tag_header_bytes h ++ (frames.map write_frame).flatten ++ post,
            pos := 10 }) := by
    simp [read_tag_extended_header, hflag]
  have hsub : sub32 (get_tag_size h) 0 = get_tag_size h := by
    simp only [sub32]
    omega
  have hclen : (tag_header_bytes h ++ (frames.map write_frame).flatten ++ post).length
      = 10 + frames_total frames + post.length := by
    rw [List.length_append, List.length_append, tag_header_bytes_length,
      flatten_write_frame_length frames (fun f hf => by rw [(hwf f hf).2.2.2.2.1])]
  have hfl := frames_length_le_total frames
  obtain ⟨a, hloop⟩ := read_tag_frames_well_formed (tag_header_bytes h) post frames
    (get_tag_size h)
    ((tag_header_bytes h ++ (frames.map write_frame).flatten ++ post).length - 10
      - frames.length)
    hwf hle (by omega) hcase
  have hfuel : (tag_header_bytes h ++ (frames.map write_frame).flatten ++ post).length - 10
        - frames.length + 1 + frames.length
      = (tag_header_bytes h ++ (frames.map write_frame).flatten ++ post).length - 10 + 1 := by
    omega
  rw [hfuel, tag_header_bytes_length] at hloop
  have hr : read_tag_frames
      ((read_tag_extended_header
          (read_tag_header
            (fopen_rb (tag_header_bytes h ++ (frames.map write_frame).flatten ++ post)))
          ((fopen_rb (tag_header_bytes h ++ (frames.map write_frame).flatten
            ++ post)).advance 10)).2.bytes.length
        - (read_tag_extended_header
          (read_tag_header
            (fopen_rb (tag_header_bytes h ++ (frames.map write_frame).flatten ++ post)))
          ((fopen_rb (tag_header_bytes h ++ (frames.map write_frame).flatten
            ++ post)).advance 10)).2.pos + 1)
      (read_tag_extended_header
          (read_tag_header
            (fopen_rb (tag_header_bytes h ++ (frames.map write_frame).flatten ++ post)))
          ((fopen_rb (tag_header_bytes h ++ (frames.map write_frame).flatten
            ++ post)).advance 10)).2
      (sub32
        (get_tag_size (read_tag_header
          (fopen_rb (tag_header_bytes h ++ (frames.map write_frame).flatten ++ post))))
        (if (read_tag_extended_header
              (read_tag_header
                (fopen_rb (tag_header_bytes h ++ (frames.map write_frame).flatten ++ post)))
              ((fopen_rb (tag_header_bytes h ++ (frames.map write_frame).flatten
                ++ post)).advance 10)).1.available = 1
          then (read_tag_extended_header
              (read_tag_header
                (fopen_rb (tag_header_bytes h ++ (frames.map write_frame).flatten ++ post)))
              ((fopen_rb (tag_header_bytes h ++ (frames.map write_frame).flatten
                ++ post)).advance 10)).1.pre_header.header_size
          else 0))
      []
      = some ({ bytes := tag_header_bytes h ++ (frames.map write_frame).flatten ++ post,
                pos := 10 + frames_total frames }, a, frames) := by
    rw [hh, hadv, he]
    rw [show (zero_extended_header,
          ({ bytes := tag_header_bytes h ++ (frames.map write_frame).flatten ++ post,
             pos := 10 } : FILE)).2
        = { bytes := tag_header_bytes h ++ (frames.map write_frame).flatten ++ post,
            pos := 10 } from rfl,
      show (zero_extended_header,
          ({ bytes := tag_header_bytes h ++ (frames.map write_frame).flatten ++ post,
             pos := 10 } : FILE)).1 = zero_extended_header from rfl,
      if_neg (show ¬ zero_extended_header.available = 1 by decide), hsub]
    exact hloop
  have hread : read_tag
      (fopen_rb (tag_header_bytes h ++ (frames.map write_frame).flatten ++ post))
      = some ({ header := read_tag_header
                  (fopen_rb (tag_header_bytes h ++ (frames.map write_frame).flatten ++ post)),
                extended_header :=
                  (read_tag_extended_header
                    (read_tag_header
                      (fopen_rb (tag_header_bytes h ++ (frames.map write_frame).flatten
                        ++ post)))
                    ((fopen_rb (tag_header_bytes h ++ (frames.map write_frame).flatten
                      ++ post)).advance 10)).1,
                frames := frames, success := 1 },
              { bytes := tag_header_bytes h ++ (frames.map write_frame).flatten ++ post,
                pos := 10 + frames_total frames }) := by
    have hc2 : ¬ ((read_tag_header
          (fopen_rb (tag_header_bytes h ++ (frames.map write_frame).flatten ++ post))).id.b0 ≠ 73
        ∨ (read_tag_header
          (fopen_rb (tag_header_bytes h ++ (frames.map write_frame).flatten ++ post))).id.b1 ≠ 68
        ∨ (read_tag_header
          (fopen_rb (tag_header_bytes h ++ (frames.map write_frame).flatten ++ post))).id.b2
            ≠ 51) := by
      rw [hh]
      exact hc
    simp only [read_tag, hc2, if_false, hr]
  rw [hread, hh, hadv, he]


theorem read_tag_allocation_written (h : IDv3_2_3_tag_header) (rest : List Byte)
    (hflag : get_tag_header_flag h 1 = 0) :
    read_tag_allocation (fopen_rb (tag_header_bytes h ++ rest)) = get_tag_size h := by
  have hS := get_tag_size_lt h
  have he : read_tag_extended_header h { bytes := tag_header_bytes h ++ rest, pos := 10 }
      = (zero_extended_header, { bytes := tag_header_bytes h ++ rest, pos := 10 }) := by
    simp [read_tag_extended_header, hflag]
  simp only [read_tag_allocation, read_tag_header_written, advance_written, he]
  rw [if_neg (show ¬ zero_extended_header.available = 1 by decide)]
  simp only [sub32]
  omega

/-- The round trip of `write_tag` and `read_tag` for the tags whose frame array holds the
frames: a tag with the id `ID3`, without extended header, whose frames have four non-zero id
bytes, a data buffer of exactly `size` bytes and 16-bit flags, whose decoded header size
equals the sum over the frames of `10 + size` and is at least `sizeof_frame` times the
number of frames.  `read_tag` applied to the bytes written by `write_tag` keeps its stores
inside the array and returns the same header and the same frames, leaving the stream at the
end of the written bytes. -/
theorem round_trip_within_frame_array (tag : IDv3_2_3_tag) (post : List Byte)
    (hid : tag.header.id = ⟨73, 68, 51⟩) (hflag : get_tag_header_flag tag.header 1 = 0)
    (hext : tag.extended_header.available ≠ 1)
    (hwf : ∀ f ∈ tag.frames, frame_well_formed f)
    (hsize : get_tag_size tag.header = frames_total tag.frames)
    (hbounds : frame_array_in_bounds (get_tag_size tag.header) tag.count_of_frames) :
    ∃ tag1 file1, read_tag (fopen_rb (write_tag tag ++ post)) = some (tag1, file1)
      ∧ frame_array_in_bounds (read_tag_allocation (fopen_rb (write_tag tag ++ post)))
          tag1.count_of_frames
      ∧ tag1.success = 1 ∧ tag1.header = tag.header
      ∧ tag1.count_of_frames = tag.count_of_frames ∧ tag1.frames = tag.frames
      ∧ file1.bytes = write_tag tag ++ post ∧ file1.pos = (write_tag tag).length := by
  obtain ⟨hw, hwl⟩ := write_tag_without_extended_header tag hext
  have hl := hwl (fun f hf => by rw [(hwf f hf).2.2.2.2.1])
  have hread := read_tag_well_formed tag.header tag.frames post hid hflag hwf
    (by omega) (Or.inl hsize.symm)
  have halloc := read_tag_allocation_written tag.header
    ((tag.frames.map write_frame).flatten ++ post) hflag
  rw [← List.append_assoc, ← hw] at halloc
  rw [← hw] at hread
  refine ⟨_, _, hread, ?_, rfl, rfl, rfl, rfl, rfl, hl.symm⟩
  rw [halloc]
  exact hbounds

/-- C19 fails on the code: the tag `sample_tag_dup` (three frames of 12, 13 and 12 bytes,
declared size 37) meets every condition of the claim.  On the 47 bytes that `write_tag`
writes for it, `read_tag` allocates 37 bytes for the frame array (line 133) and stores three
frame structures in it (line 143), 72 bytes on 64-bit and 48 bytes on 32-bit targets: on
64-bit targets already the second store leaves the array, on 32-bit targets the third. -/
theorem read_tag_overflows_frame_array :
    sample_tag_dup.header.id = ⟨73, 68, 51⟩
      ∧ get_tag_header_flag sample_tag_dup.header 1 = 0
      ∧ sample_tag_dup.extended_header.available = 0
      ∧ (∀ f ∈ sample_tag_dup.frames, frame_well_formed f)
      ∧ get_tag_size sample_tag_dup.header = frames_total sample_tag_dup.frames
      ∧ get_tag_size sample_tag_dup.header < 2 ^ 28
      ∧ (write_tag sample_tag_dup).length = 47
      ∧ read_tag_allocation (fopen_rb (write_tag sample_tag_dup)) = 37
      ∧ (read_tag (fopen_rb (write_tag sample_tag_dup))).map (fun r => r.1.count_of_frames)
          = some 3
      ∧ ¬ frame_array_in_bounds (read_tag_allocation (fopen_rb (write_tag sample_tag_dup))) 3
      ∧ ¬ frame_array_in_bounds (read_tag_allocation (fopen_rb (write_tag sample_tag_dup))) 2
      ∧ ¬ 16 * 3 ≤ read_tag_allocation (fopen_rb (write_tag sample_tag_dup)) := by
  decide

/-- C18 as stated fails: in `sample_file_padded` the header declares `S = 35` (a frame of 23
bytes and 12 bytes of padding), so `10 + S = 45`; the one frame structure fits the frame
array of 35 bytes; `read_tag` leaves the stream at offset 33, the first padding byte, and
the `--set` path copies the file from offset 33 on, the padding included, behind the
rewritten tag. -/
theorem main_set_copies_padding :
    (read_tag (fopen_rb sample_file_padded)).map
        (fun r => (get_tag_size r.1.header, frames_total r.1.frames, r.2.pos))
      = some (35, 23, 33)
    ∧ (read_tag (fopen_rb sample_file_padded)).map
        (fun r => decide (frame_array_in_bounds (read_tag_allocation
          (fopen_rb sample_file_padded)) r.1.count_of_frames))
      = some true
    ∧ main_set sample_file_padded [65] id_TIT2
      = (read_tag (fopen_rb sample_file_padded)).map
        (fun r => write_tag (update_tag_by_name r.1 [0, 65] 2 id_TIT2)
          ++ sample_file_padded.drop 33)
    ∧ sample_file_padded.drop 33 = [0, 0, 0, 0, 0, 0, 0, 0, 0, 0, 0, 0, 255, 251, 144, 100]
    ∧ sample_file_padded.drop (10 + 35) = [255, 251, 144, 100] := by
  decide

/-- C18 (amended): for an original file made of a tag header (`ID3`, extended-header flag
clear) declaring size `S`, written frames with non-zero id bytes that occupy `T ≤ S` bytes
and whose structures fit the frame array of `S` bytes, and further bytes `post`, where
either `T = S` or `post` begins with ten zero bytes of padding: `read_tag` keeps its stores
inside the frame array and leaves the stream at offset `10 + T`, the unread rest is `post`,
and the `--set` path writes the rewritten tag followed by the copy of `post`.  The copied
suffix thus starts at `10 + S` when the frames fill the declared size, and at the first
padding byte when the tag ends in padding. -/
theorem main_set_suffix_start (h : IDv3_2_3_tag_header) (frames : List IDv3_2_3_frame)
    (post value : List Byte) (set_frame_id : Bytes4)
    (hid : h.id = ⟨73, 68, 51⟩) (hflag : get_tag_header_flag h 1 = 0)
    (hwf : ∀ f ∈ frames, frame_well_formed f) (hle : frames_total frames ≤ get_tag_size h)
    (hbounds : frame_array_in_bounds (get_tag_size h) frames.length)
    (hcase : frames_total frames = get_tag_size h ∨ ∃ rest, post = List.replicate 10 0 ++ rest) :
    ∃ tag file,
      read_tag (fopen_rb (tag_header_bytes h ++ (frames.map write_frame).flatten ++ post))
          = some (tag, file)
      ∧ frame_array_in_bounds
          (read_tag_allocation
            (fopen_rb (tag_header_bytes h ++ (frames.map write_frame).flatten ++ post)))
          tag.count_of_frames
      ∧ get_tag_size tag.header = get_tag_size h
      ∧ file.pos = 10 + frames_total frames
      ∧ file.bytes.drop file.pos = post
      ∧ main_set (tag_header_bytes h ++ (frames.map write_frame).flatten ++ post) value
            set_frame_id
          = some (write_tag (update_tag_by_name tag (0 :: value) ((value.length + 1) % 2 ^ 32)
                    set_frame_id)
              ++ copy_from_tmp (copy_to_tmp post))
      ∧ (frames_total frames = get_tag_size h → file.pos = 10 + get_tag_size h) := by
  have hread := read_tag_well_formed h frames post hid hflag hwf hle hcase
  have halloc := read_tag_allocation_written h ((frames.map write_frame).flatten ++ post) hflag
  rw [← List.append_assoc] at halloc
  have hdrop : (tag_header_bytes h ++ (frames.map write_frame).flatten ++ post).drop
      (10 + frames_total frames) = post := by
    have hlen : (tag_header_bytes h ++ (frames.map write_frame).flatten).length
        = 10 + frames_total frames := by
      rw [List.length_append, tag_header_bytes_length,
        flatten_write_frame_length frames (fun f hf => by rw [(hwf f hf).2.2.2.2.1])]
    rw [← hlen, List.drop_left]
  refine ⟨_, _, hread, ?_, rfl, rfl, hdrop, ?_, ?_⟩
  · rw [halloc]
    exact hbounds
  · simp only [main_set, hread, hdrop]
  · intro heq
    simp only [heq]

/-- C18 (amended) on `sample_file_padded`: one `TIT2` frame of 23 bytes, declared size 35,
twelve zero bytes and four audio bytes. -/
theorem main_set_suffix_start_witness :
    ∃ tag file,
      read_tag (fopen_rb (tag_header_bytes (sample_header ⟨0, 0, 0, 35⟩)
          ++ ([({ header := { id := id_TIT2, size := 13, flags := 0 },
                  data := [0, 72, 101, 108, 108, 111, 32, 87, 111, 114, 108, 100, 33] }
                : IDv3_2_3_frame)].map write_frame).flatten
          ++ [0, 0, 0, 0, 0, 0, 0, 0, 0, 0, 0, 0, 255, 251, 144, 100]))
          = some (tag, file)
      ∧ frame_array_in_bounds
          (read_tag_allocation (fopen_rb (tag_header_bytes (sample_header ⟨0, 0, 0, 35⟩)
            ++ ([({ header := { id := id_TIT2, size := 13, flags := 0 },
                    data := [0, 72, 101, 108, 108, 111, 32, 87, 111, 114, 108, 100, 33] }
                  : IDv3_2_3_frame)].map write_frame).flatten
            ++ [0, 0, 0, 0, 0, 0, 0, 0, 0, 0, 0, 0, 255, 251, 144, 100])))
          tag.count_of_frames
      ∧ get_tag_size tag.header = get_tag_size (sample_header ⟨0, 0, 0, 35⟩)
      ∧ file.pos = 10 + frames_total
          [({ header := { id := id_TIT2, size := 13, flags := 0 },
              data := [0, 72, 101, 108, 108, 111, 32, 87, 111, 114, 108, 100, 33] }
            : IDv3_2_3_frame)]
      ∧ file.bytes.drop file.pos = [0, 0, 0, 0, 0, 0, 0, 0, 0, 0, 0, 0, 255, 251, 144, 100]
      ∧ main_set (tag_header_bytes (sample_header ⟨0, 0, 0, 35⟩)
          ++ ([({ header := { id := id_TIT2, size := 13, flags := 0 },
                  data := [0, 72, 101, 108, 108, 111, 32, 87, 111, 114, 108, 100, 33] }
                : IDv3_2_3_frame)].map write_frame).flatten
          ++ [0, 0, 0, 0, 0, 0, 0, 0, 0, 0, 0, 0, 255, 251, 144, 100]) [65] id_TIT2
          = some (write_tag (update_tag_by_name tag (0 :: [65])
                    ((([65] : List Byte).length + 1) % 2 ^ 32) id_TIT2)
              ++ copy_from_tmp
                  (copy_to_tmp [0, 0, 0, 0, 0, 0, 0, 0, 0, 0, 0, 0, 255, 251, 144, 100])) := by
  obtain ⟨tag, file, h1, h2, h3, h4, h5, h6, _⟩ :=
    main_set_suffix_start (sample_header ⟨0, 0, 0, 35⟩)
      [{ header := { id := id_TIT2, size := 13, flags := 0 },
         data := [0, 72, 101, 108, 108, 111, 32, 87, 111, 114, 108, 100, 33] }]
      [0, 0, 0, 0, 0, 0, 0, 0, 0, 0, 0, 0, 255, 251, 144, 100] [65] id_TIT2
      (by decide) (by decide) (by decide) (by decide) (by decide)
      (Or.inr ⟨[0, 0, 255, 251, 144, 100], rfl⟩)
  exact ⟨tag, file, h1, h2, h3, h4, h5, h6⟩

/-- C20 on `sample_stream_padded` (35 bytes): `read_tag` returns, and the frame loop is
allowed 26 iterations. -/
theorem read_tag_terminates_witness :
    (∃ r, read_tag (fopen_rb sample_stream_padded) = some r)
      ∧ (read_tag_extended_header (read_tag_header (fopen_rb sample_stream_padded))
            ((fopen_rb sample_stream_padded).advance 10)).2.bytes.length
          - (read_tag_extended_header (read_tag_header (fopen_rb sample_stream_padded))
            ((fopen_rb sample_stream_padded).advance 10)).2.pos + 1
        ≤ (fopen_rb sample_stream_padded).bytes.length :=
  ⟨(read_tag_terminates (fopen_rb sample_stream_padded)).1,
   (read_tag_terminates (fopen_rb sample_stream_padded)).2.2 rfl (by decide)⟩

end ID3
